import Mathlib

/-
  Formalisation of the versalign alignment engine (motif/sequence model,
  Needleman-Wunsch and Smith-Waterman pairwise aligners, progressive MSA)
  as a shallow embedding.  Matrices are total functions on indices with
  pointwise update; integer penalties and scores are modelled with Int
  (the float32 storage of the reference is exact on the integer values the
  engine computes); the guide tree produced by the external hierarchical
  clustering library is taken as an input parameter of the MSA.
-/

set_option maxHeartbeats 1600000

namespace Versalign

/-- Kind of a motif: the distinguished Gap, or an ordinary motif carrying a
caller payload.  Mirrors the class hierarchy of motif.py (the Gap subclass
versus caller defined subclasses). -/
inductive MotifKind (α : Type) : Type where
  | gap : MotifKind α
  | sym : α → MotifKind α
deriving DecidableEq, Repr

/-- A motif: its kind together with the optional tag carried by the Motif
base class in motif.py.  Tags only ever hold list indices, hence Option Nat. -/
structure Motif (α : Type) : Type where
  kind : MotifKind α
  tag : Option Nat
deriving DecidableEq, Repr

/-- Gap construction (motif.py): a Gap is created untagged. -/
def Gap {α : Type} : Motif α := ⟨MotifKind.gap, none⟩

/-- The isinstance Gap test, which is also how Gap.__eq__ compares a Gap
against any other motif. -/
def isGap {α : Type} (m : Motif α) : Bool :=
  match m.kind with
  | MotifKind.gap => true
  | MotifKind.sym _ => false

/-- A sequence (sequence.py): an identifier plus an ordered list of motifs. -/
structure Sequence (α : Type) : Type where
  identifier : String
  motifs : List (Motif α)
deriving DecidableEq, Repr

/-- len of a sequence. -/
def Sequence.length {α : Type} (s : Sequence α) : Nat := s.motifs.length

/-- Python list.insert: the index is clamped into range and the element is
always inserted, so the length always grows by one. -/
def pyInsert {β : Type} (l : List β) (idx : Nat) (x : β) : List β :=
  l.take idx ++ x :: l.drop idx

/-- Sequence.insert from sequence.py. -/
def Sequence.insert {α : Type} (s : Sequence α) (idx : Nat) (m : Motif α) : Sequence α :=
  ⟨s.identifier, pyInsert s.motifs idx m⟩

/-- Helper for Sequence.tag: tag the motifs of a list with consecutive
indices starting at i. -/
def tagMotifsFrom {α : Type} : Nat → List (Motif α) → List (Motif α)
  | _, [] => []
  | i, m :: ms => ⟨m.kind, some i⟩ :: tagMotifsFrom (i + 1) ms

/-- Sequence.tag from sequence.py: every motif gets its index as tag. -/
def Sequence.tag {α : Type} (s : Sequence α) : Sequence α :=
  ⟨s.identifier, tagMotifsFrom 0 s.motifs⟩

/-- Sequence.clear_tags from sequence.py: every tag is reset to None. -/
def Sequence.clear_tags {α : Type} (s : Sequence α) : Sequence α :=
  ⟨s.identifier, s.motifs.map (fun m => ⟨m.kind, none⟩)⟩

/-- Matrix.set_value (matrix.py) on the functional matrix representation.
The noinline keeps evaluation strict in the stored value, matching the
eager cell updates of the source. -/
@[noinline] def setValue (m : Nat → Nat → Int) (row col : Nat) (v : Int) : Nat → Nat → Int :=
  fun i j => if i = row ∧ j = col then v else m i j

/-- Value written into cell (ri, ci) by the fill loop of
create_alignment_matrix_needelman_wunsch in pairwise.py. -/
def nwCellValue {α : Type} (seq_a seq_b : Sequence α) (gap_penalty end_gap_penalty : Int)
    (score_func : Motif α → Motif α → Int) (m : Nat → Nat → Int) (ri ci : Nat) : Int :=
  let score := score_func (seq_a.motifs.getD (ri - 1) Gap) (seq_b.motifs.getD (ci - 1) Gap)
  let penalty := if ci = seq_b.length ∨ ri = seq_a.length then end_gap_penalty else gap_penalty
  max (max (m (ri - 1) ci - penalty) (m ri (ci - 1) - penalty)) (m (ri - 1) (ci - 1) + score)

/-- Inner loop of the fill: rows 1 .. len(seq_a) of one column ci. -/
def nwFillCol {α : Type} (seq_a seq_b : Sequence α) (gap_penalty end_gap_penalty : Int)
    (score_func : Motif α → Motif α → Int) (m : Nat → Nat → Int) (ci : Nat) :
    Nat → Nat → Int :=
  (List.range' 1 seq_a.length).foldl
    (fun m ri => setValue m ri ci (nwCellValue seq_a seq_b gap_penalty end_gap_penalty score_func m ri ci))
    m

/-- create_alignment_matrix_needelman_wunsch from pairwise.py: first row and
column initialised with cumulative end gap penalties, then the interior
filled column by column. -/
def create_alignment_matrix_needelman_wunsch {α : Type} (seq_a seq_b : Sequence α)
    (gap_penalty end_gap_penalty : Int) (score_func : Motif α → Motif α → Int) :
    Nat → Nat → Int :=
  let nrows := seq_a.length + 1
  let ncols := seq_b.length + 1
  let m0 : Nat → Nat → Int := fun _ _ => 0
  let m1 := (List.range nrows).foldl (fun m ri => setValue m ri 0 ((ri : Int) * end_gap_penalty)) m0
  let m2 := (List.range ncols).foldl (fun m ci => setValue m 0 ci ((ci : Int) * end_gap_penalty)) m1
  (List.range' 1 seq_b.length).foldl (nwFillCol seq_a seq_b gap_penalty end_gap_penalty score_func) m2

/-- AlignmentMatrix.alignment_score (matrix.py): the bottom right cell of a
matrix built from the two sequences. -/
def alignment_score {α : Type} (seq_a seq_b : Sequence α) (m : Nat → Nat → Int) : Int :=
  m seq_a.length seq_b.length

/-- The recursive traceback of traceback_alignment_needelman_wunsch in
pairwise.py, with an explicit recursion bound so that the definition
computes structurally: every recursive call lowers ri + ci, so a fuel of
ri + ci is exact and the fuel exhaustion arm is never reached from the
entry point below.  The final arm of the interior cell mirrors the raise of
ValueError in the source: it can only be reached if neither
horizontal > vertical nor vertical >= horizontal holds, which never
happens over a total order. -/
def tracebackFuel {α : Type} [DecidableEq α] (matrix : Nat → Nat → Int) (seq_a seq_b : Sequence α)
    (gap_penalty end_gap_penalty : Int) : Nat → Nat → Nat → List (Motif α × Motif α)
  | _, 0, 0 => []
  | fuel + 1, 0, ci + 1 =>
    tracebackFuel matrix seq_a seq_b gap_penalty end_gap_penalty fuel 0 ci
      ++ [(Gap, seq_b.motifs.getD ci Gap)]
  | fuel + 1, ri + 1, 0 =>
    tracebackFuel matrix seq_a seq_b gap_penalty end_gap_penalty fuel ri 0
      ++ [(seq_a.motifs.getD ri Gap, Gap)]
  | fuel + 1, ri + 1, ci + 1 =>
    let penalty := if ri + 1 = seq_a.length ∨ ci + 1 = seq_b.length then end_gap_penalty else gap_penalty
    let current := matrix (ri + 1) (ci + 1)
    let horizontal := matrix (ri + 1) ci
    let diagonal := matrix ri ci
    let vertical := matrix ri (ci + 1)
    let a := seq_a.motifs.getD ri Gap
    let b := seq_b.motifs.getD ci Gap
    if a.kind = b.kind ∨ diagonal > max horizontal vertical
        ∨ (vertical - current ≠ penalty ∧ horizontal - current ≠ penalty) then
      tracebackFuel matrix seq_a seq_b gap_penalty end_gap_penalty fuel ri ci ++ [(a, b)]
    else if horizontal > vertical then
      tracebackFuel matrix seq_a seq_b gap_penalty end_gap_penalty fuel (ri + 1) ci ++ [(Gap, b)]
    else if vertical ≥ horizontal then
      tracebackFuel matrix seq_a seq_b gap_penalty end_gap_penalty fuel ri (ci + 1) ++ [(a, Gap)]
    else []
  | 0, _, _ => []

/-- The traceback entered at cell (ri, ci), with its exact recursion bound. -/
def traceback {α : Type} [DecidableEq α] (matrix : Nat → Nat → Int) (seq_a seq_b : Sequence α)
    (gap_penalty end_gap_penalty : Int) (ri ci : Nat) : List (Motif α × Motif α) :=
  tracebackFuel matrix seq_a seq_b gap_penalty end_gap_penalty (ri + ci) ri ci

/-- needleman_wunsch from pairwise.py: build the matrix, read the score from
the bottom right cell, trace back from (nrows-1, ncols-1), and wrap the two
projections of the traceback into sequences keeping the input identifiers. -/
def needleman_wunsch {α : Type} [DecidableEq α] (seq_a seq_b : Sequence α)
    (score_func : Motif α → Motif α → Int) (gap_penalty end_gap_penalty : Int) :
    Sequence α × Sequence α × Int :=
  let matrix := create_alignment_matrix_needelman_wunsch seq_a seq_b gap_penalty end_gap_penalty score_func
  let score := alignment_score seq_a seq_b matrix
  let aligned := traceback matrix seq_a seq_b gap_penalty end_gap_penalty seq_a.length seq_b.length
  (⟨seq_a.identifier, aligned.map Prod.fst⟩, ⟨seq_b.identifier, aligned.map Prod.snd⟩, score)

/-- Direction selection of smith_waterman: np.argmax over the list
[(STOP, 0), (DIAGONAL, d), (VERTICAL, v), (HORIZONTAL, h)] keeps the first
index attaining the maximum. -/
def swBest (diagonal vertical horizontal : Int) : Nat × Int :=
  [((0 : Nat), (0 : Int)), (1, diagonal), (2, vertical), (3, horizontal)].foldl
    (fun best p => if p.2 > best.2 then p else best) ((0 : Nat), (0 : Int))

/-- One cell of the Smith-Waterman fill loop: update the score matrix, record
the chosen direction in the tracing matrix and track the running maximum
(strictly greater updates keep the first maximal cell of the scan). -/
def swCellStep {α : Type} (seq_a seq_b : Sequence α) (score_func : Motif α → Motif α → Int)
    (gap_penalty : Int) (ri : Nat)
    (st : (Nat → Nat → Int) × (Nat → Nat → Nat) × Option (Int × Nat × Nat)) (ci : Nat) :
    (Nat → Nat → Int) × (Nat → Nat → Nat) × Option (Int × Nat × Nat) :=
  let m := st.1
  let t := st.2.1
  let mx := st.2.2
  let diagonal := m (ri - 1) (ci - 1)
    + score_func (seq_a.motifs.getD (ri - 1) Gap) (seq_b.motifs.getD (ci - 1) Gap)
  let vertical := m (ri - 1) ci - gap_penalty
  let horizontal := m ri (ci - 1) - gap_penalty
  let best := swBest diagonal vertical horizontal
  let m2 := setValue m ri ci best.2
  let t2 : Nat → Nat → Nat := fun i j => if i = ri ∧ j = ci then best.1 else t i j
  let mx2 := match mx with
    | none => some (best.2, ri, ci)
    | some (s, r0, c0) => if best.2 > s then some (best.2, ri, ci) else some (s, r0, c0)
  (m2, t2, mx2)

/-- One row of the Smith-Waterman fill loop: columns 1 .. len(seq_b). -/
def swRowStep {α : Type} (seq_a seq_b : Sequence α) (score_func : Motif α → Motif α → Int)
    (gap_penalty : Int)
    (st : (Nat → Nat → Int) × (Nat → Nat → Nat) × Option (Int × Nat × Nat)) (ri : Nat) :
    (Nat → Nat → Int) × (Nat → Nat → Nat) × Option (Int × Nat × Nat) :=
  (List.range' 1 seq_b.length).foldl (swCellStep seq_a seq_b score_func gap_penalty ri) st

/-- State of the Smith-Waterman fill loop after walking rows 1 .. len(seq_a):
the score matrix, the tracing matrix (direction codes 0..3), and the running
maximum with its position. -/
def swFill {α : Type} (seq_a seq_b : Sequence α) (score_func : Motif α → Motif α → Int)
    (gap_penalty : Int) :
    (Nat → Nat → Int) × (Nat → Nat → Nat) × Option (Int × Nat × Nat) :=
  (List.range' 1 seq_a.length).foldl (swRowStep seq_a seq_b score_func gap_penalty)
    (fun _ _ => 0, fun _ _ => 0, none)

/-- The while loop traceback of smith_waterman, directed by the tracing
matrix: 1 diagonal, 2 vertical, 3 horizontal, anything else stops.  As with
the global traceback an exact recursion bound of ri + ci keeps the
definition structural.  In the source the row and column zero of the
tracing matrix always hold STOP, so the catch-all arm for a border cell is
never taken with a nonzero code. -/
def swTracebackFuel {α : Type} (t : Nat → Nat → Nat) (seq_a seq_b : Sequence α) :
    Nat → Nat → Nat → List (Motif α × Motif α)
  | fuel + 1, ri + 1, ci + 1 =>
    match t (ri + 1) (ci + 1) with
    | 1 => swTracebackFuel t seq_a seq_b fuel ri ci
        ++ [(seq_a.motifs.getD ri Gap, seq_b.motifs.getD ci Gap)]
    | 2 => swTracebackFuel t seq_a seq_b fuel ri (ci + 1)
        ++ [(seq_a.motifs.getD ri Gap, Gap)]
    | 3 => swTracebackFuel t seq_a seq_b fuel (ri + 1) ci
        ++ [(Gap, seq_b.motifs.getD ci Gap)]
    | _ => []
  | _, _, _ => []

/-- The local traceback entered at the maximum cell. -/
def swTraceback {α : Type} (t : Nat → Nat → Nat) (seq_a seq_b : Sequence α) (ri ci : Nat) :
    List (Motif α × Motif α) :=
  swTracebackFuel t seq_a seq_b (ri + ci) ri ci

/-- smith_waterman from pairwise.py.  When both loop ranges are empty the
maximum score is never set and the function raises ValueError; this is the
error case of the result. -/
def smith_waterman {α : Type} [DecidableEq α] (seq_a seq_b : Sequence α)
    (score_func : Motif α → Motif α → Int) (gap_penalty : Int) :
    Except String (Sequence α × Sequence α × Int) :=
  let st := swFill seq_a seq_b score_func gap_penalty
  match st.2.2 with
  | none => Except.error "Maximum score and its position not found."
  | some (max_score, ri, ci) =>
    let aligned := swTraceback st.2.1 seq_a seq_b ri ci
    Except.ok
      (⟨seq_a.identifier, aligned.map Prod.fst⟩, ⟨seq_b.identifier, aligned.map Prod.snd⟩, max_score)

/-- pairwise_scoring_matrix from msa.py: for every pair with j >= i the
global alignment score is written into both cells (i, j) and (j, i); the
diagonal is computed like any other pair. -/
def pairwise_scoring_matrix {α : Type} (seqs : List (Sequence α)) (gap_penalty end_gap_penalty : Int)
    (score_func : Motif α → Motif α → Int) : Nat → Nat → Int :=
  let num_seqs := seqs.length
  (List.range num_seqs).foldl
    (fun m i =>
      (List.range num_seqs).foldl
        (fun m j =>
          if j < i then m
          else
            let seq_a := seqs.getD i ⟨"", []⟩
            let seq_b := seqs.getD j ⟨"", []⟩
            let score := alignment_score seq_a seq_b
              (create_alignment_matrix_needelman_wunsch seq_a seq_b gap_penalty end_gap_penalty score_func)
            setValue (setValue m i j score) j i score)
        m)
    (fun _ _ => 0)

/-- merge_singles from msa.py: align the two sequences, clear the tags and
return the two aligned sequences as a cluster. -/
def merge_singles {α : Type} [DecidableEq α] (single1 single2 : Sequence α)
    (gap_penalty end_gap_penalty : Int) (score_func : Motif α → Motif α → Int) :
    List (Sequence α) :=
  let r := needleman_wunsch single1 single2 score_func gap_penalty end_gap_penalty
  [r.1.clear_tags, r.2.1.clear_tags]

/-- The gap propagation loop shared by the MSA merges: for every position of
the aligned anchor whose motif carries no tag, a Gap is inserted at that
position into every sequence of others. -/
def insert_new_gaps {α : Type} (anchor : Sequence α) (others : List (Sequence α)) :
    List (Sequence α) :=
  anchor.motifs.enum.foldl
    (fun others p =>
      if p.2.tag = none then others.map (fun s => s.insert p.1 Gap) else others)
    others

/-- merge_single_with_cluster from msa.py.  The in-place tagging of the first
and last cluster member is modelled by tagging the copies handed to the
aligner; the tags of the untouched members never influence the result and
all tags are cleared at the end exactly as in the source. -/
def merge_single_with_cluster {α : Type} [DecidableEq α] (single : Sequence α)
    (cluster : List (Sequence α)) (gap_penalty end_gap_penalty : Int)
    (score_func : Motif α → Motif α → Int) : List (Sequence α) :=
  let first := (cluster.headD ⟨"", []⟩).tag
  let last := (cluster.getLastD ⟨"", []⟩).tag
  let r1 := needleman_wunsch single first score_func gap_penalty end_gap_penalty
  let r2 := needleman_wunsch single last score_func gap_penalty end_gap_penalty
  if r1.2.2 ≥ r2.2.2 then
    let new := r1.1
    let anchor := r1.2.1
    let others := insert_new_gaps anchor cluster.tail
    new.clear_tags :: anchor.clear_tags :: others.map Sequence.clear_tags
  else
    let new := r2.1
    let anchor := r2.2.1
    let others := insert_new_gaps anchor cluster.dropLast
    others.map Sequence.clear_tags ++ [anchor.clear_tags, new.clear_tags]

/-- merge_clusters from msa.py, including the crossed tuple unpacking of its
else branch: there msa2_align_to receives the aligned top of cluster1 and
msa1_align_to the aligned bottom of cluster2, and the gap columns of each
anchor are propagated into the opposite cluster. -/
def merge_clusters {α : Type} [DecidableEq α] (cluster1 cluster2 : List (Sequence α))
    (gap_penalty end_gap_penalty : Int) (score_func : Motif α → Motif α → Int) :
    List (Sequence α) :=
  let msa1_top := (cluster1.headD ⟨"", []⟩).tag
  let msa1_bottom := (cluster1.getLastD ⟨"", []⟩).tag
  let msa2_top := (cluster2.headD ⟨"", []⟩).tag
  let msa2_bottom := (cluster2.getLastD ⟨"", []⟩).tag
  let rA := needleman_wunsch msa1_bottom msa2_top score_func gap_penalty end_gap_penalty
  let rB := needleman_wunsch msa1_top msa2_bottom score_func gap_penalty end_gap_penalty
  if rA.2.2 ≥ rB.2.2 then
    let msa1_align_to := rA.1
    let msa2_align_to := rA.2.1
    let msa1_others := insert_new_gaps msa1_align_to cluster1.dropLast
    let msa2_others := insert_new_gaps msa2_align_to cluster2.tail
    msa1_others.map Sequence.clear_tags
      ++ [msa1_align_to.clear_tags, msa2_align_to.clear_tags]
      ++ msa2_others.map Sequence.clear_tags
  else
    let msa2_align_to := rB.1
    let msa1_align_to := rB.2.1
    let msa1_others := insert_new_gaps msa1_align_to cluster1.tail
    let msa2_others := insert_new_gaps msa2_align_to cluster2.dropLast
    msa2_others.map Sequence.clear_tags
      ++ [msa2_align_to.clear_tags, msa1_align_to.clear_tags]
      ++ msa1_others.map Sequence.clear_tags

/-- Lookup in the cluster dictionary of the MSA loop. -/
def dictGet {β : Type} (d : List (Nat × β)) (k : Nat) : Option β :=
  (d.find? (fun e => e.1 == k)).map (fun e => e.2)

/-- Assignment msa[k] = v: replace the value when the key is present,
append otherwise (Python dict semantics). -/
def dictSet {β : Type} (d : List (Nat × β)) (k : Nat) (v : β) : List (Nat × β) :=
  if (d.find? (fun e => e.1 == k)).isSome then
    d.map (fun e => if e.1 == k then (k, v) else e)
  else d ++ [(k, v)]

/-- del msa[k]: remove the key, failing like the KeyError of the source when
the key is absent. -/
def dictDel {β : Type} (d : List (Nat × β)) (k : Nat) : Option (List (Nat × β)) :=
  if (d.find? (fun e => e.1 == k)).isSome then
    some (d.filter (fun e => e.1 != k))
  else none

/-- The merge dispatch of the guide tree walk: single with single, single
with cluster (in either order), or cluster with cluster. -/
def msaMerge {α : Type} [DecidableEq α] (gap_penalty end_gap_penalty : Int)
    (score_func : Motif α → Motif α → Int) (c1 c2 : List (Sequence α)) :
    List (Sequence α) :=
  if c1.length = 1 ∧ c2.length = 1 then
    merge_singles (c1.headD ⟨"", []⟩) (c2.headD ⟨"", []⟩) gap_penalty end_gap_penalty score_func
  else if c1.length = 1 then
    merge_single_with_cluster (c1.headD ⟨"", []⟩) c2 gap_penalty end_gap_penalty score_func
  else if c2.length = 1 then
    merge_single_with_cluster (c2.headD ⟨"", []⟩) c1 gap_penalty end_gap_penalty score_func
  else
    merge_clusters c1 c2 gap_penalty end_gap_penalty score_func

/-- One step of the guide tree walk of multiple_sequence_alignment: fetch the
two clusters, merge them according to their sizes, store the result under
the fresh index and delete both operands. -/
def msaStep {α : Type} [DecidableEq α] (gap_penalty end_gap_penalty : Int)
    (score_func : Motif α → Motif α → Int) (num_seqs : Nat)
    (st : Option (List (Nat × List (Sequence α)))) (p : Nat × Nat × Nat) :
    Option (List (Nat × List (Sequence α))) :=
  match st with
  | none => none
  | some d =>
    match dictGet d p.2.1, dictGet d p.2.2 with
    | some c1, some c2 =>
      match dictDel (dictSet d (p.1 + num_seqs)
          (msaMerge gap_penalty end_gap_penalty score_func c1 c2)) p.2.1 with
      | none => none
      | some d2 => dictDel d2 p.2.2
    | _, _ => none

/-- multiple_sequence_alignment from msa.py.  The guide tree produced by the
external hierarchical clustering library (scipy linkage over the distance
matrix) is a collaborator outside this core and is taken as an input: a list
of merge pairs walked in order, step k merging clusters j1 and j2 into the
fresh cluster number len(seqs) + k.  The error case covers both a failing
dictionary access and the final ValueError when more than one cluster
remains. -/
def multiple_sequence_alignment {α : Type} [DecidableEq α] (seqs : List (Sequence α))
    (gap_penalty end_gap_penalty : Int) (score_func : Motif α → Motif α → Int)
    (guide_tree : List (Nat × Nat)) : Option (List (Sequence α)) :=
  if seqs.length = 0 then some []
  else if seqs.length = 1 then some seqs
  else
    let init := seqs.enum.map (fun p => (p.1, [p.2]))
    match guide_tree.enum.foldl (msaStep gap_penalty end_gap_penalty score_func seqs.length)
        (some init) with
    | some [(_, cluster)] => some cluster
    | _ => none

/-- The DP matrix exactly as the specification states it: cell (i, 0) is
i * end_gap_penalty, cell (0, j) is j * end_gap_penalty, and an interior
cell maximises over gap in either sequence minus the penalty and the
diagonal plus the motif score, where the penalty is the end gap penalty on
the last sequence row or column and the gap penalty elsewhere. -/
def nwMatrixSpec {α : Type} (seq_a seq_b : Sequence α) (gap_penalty end_gap_penalty : Int)
    (score_func : Motif α → Motif α → Int) : Nat → Nat → Int
  | i, 0 => (i : Int) * end_gap_penalty
  | 0, j + 1 => ((j : Int) + 1) * end_gap_penalty
  | i + 1, j + 1 =>
    let penalty := if i + 1 = seq_a.length ∨ j + 1 = seq_b.length then end_gap_penalty else gap_penalty
    max (max (nwMatrixSpec seq_a seq_b gap_penalty end_gap_penalty score_func i (j + 1) - penalty)
        (nwMatrixSpec seq_a seq_b gap_penalty end_gap_penalty score_func (i + 1) j - penalty))
      (nwMatrixSpec seq_a seq_b gap_penalty end_gap_penalty score_func i j
        + score_func (seq_a.motifs.getD i Gap) (seq_b.motifs.getD j Gap))
  termination_by i j => (i, j)

/-- The traceback invariant of the columns filled so far: every cell of row
zero, and every cell of a column up to c, already agrees with the
specification matrix. -/
def nwInv {α : Type} (seq_a seq_b : Sequence α) (gap_penalty end_gap_penalty : Int)
    (score_func : Motif α → Motif α → Int) (c : Nat) (m : Nat → Nat → Int) : Prop :=
  ∀ i j, i ≤ seq_a.length → j ≤ seq_b.length → (i = 0 ∨ j ≤ c) →
    m i j = nwMatrixSpec seq_a seq_b gap_penalty end_gap_penalty score_func i j

/-- The diagonal decision of the traceback as the specification words it:
the two motifs are equal, or the diagonal cell strictly exceeds both the
vertical and the horizontal cell, or neither the vertical nor the
horizontal delta equals the local penalty. -/
def specDiagMove {α : Type} [DecidableEq α] (seq_a seq_b : Sequence α)
    (matrix : Nat → Nat → Int) (penalty : Int) (ri ci : Nat) : Prop :=
  (seq_a.motifs.getD (ri - 1) Gap).kind = (seq_b.motifs.getD (ci - 1) Gap).kind
  ∨ (matrix (ri - 1) (ci - 1) > matrix (ri - 1) ci ∧ matrix (ri - 1) (ci - 1) > matrix ri (ci - 1))
  ∨ (matrix (ri - 1) ci - matrix ri ci ≠ penalty ∧ matrix ri (ci - 1) - matrix ri ci ≠ penalty)

/-- Concrete motif with payload A, used in the concrete scenarios. -/
def chA : Motif Char := ⟨MotifKind.sym 'A', none⟩

/-- Concrete motif with payload B, used in the concrete scenarios. -/
def chB : Motif Char := ⟨MotifKind.sym 'B', none⟩

/-- The score function of the test suite: +1 for equal motifs, -1 otherwise. -/
def simpleScore : Motif Char → Motif Char → Int :=
  fun a b => if a.kind = b.kind then 1 else -1

/-- A stronger match reward, +5 for equal motifs and -1 otherwise, used to
separate the two cross alignment scores in the cluster merge scenario. -/
def strongScore : Motif Char → Motif Char → Int :=
  fun a b => if a.kind = b.kind then 5 else -1

theorem setValue_apply (m : Nat → Nat → Int) (row col : Nat) (v : Int) (i j : Nat) :
    setValue m row col v i j = if i = row ∧ j = col then v else m i j := rfl

theorem tracebackFuel_congr {α : Type} [DecidableEq α] (matrix : Nat → Nat → Int)
    (seq_a seq_b : Sequence α) (gp egp : Int) :
    ∀ (f1 f2 ri ci : Nat), ri + ci ≤ f1 → ri + ci ≤ f2 →
    tracebackFuel matrix seq_a seq_b gp egp f1 ri ci
      = tracebackFuel matrix seq_a seq_b gp egp f2 ri ci := by
  intro f1
  induction f1 with
  | zero =>
    intro f2 ri ci h1 _
    have hri : ri = 0 := by omega
    have hci : ci = 0 := by omega
    subst hri; subst hci
    cases f2 <;> rfl
  | succ f1 ih =>
    intro f2 ri ci h1 h2
    match ri, ci with
    | 0, 0 => cases f2 <;> rfl
    | 0, ci + 1 =>
      obtain ⟨g2, rfl⟩ : ∃ g2, f2 = g2 + 1 := ⟨f2 - 1, by omega⟩
      simp only [tracebackFuel]
      rw [ih g2 0 ci (by omega) (by omega)]
    | ri + 1, 0 =>
      obtain ⟨g2, rfl⟩ : ∃ g2, f2 = g2 + 1 := ⟨f2 - 1, by omega⟩
      simp only [tracebackFuel]
      rw [ih g2 ri 0 (by omega) (by omega)]
    | ri + 1, ci + 1 =>
      obtain ⟨g2, rfl⟩ : ∃ g2, f2 = g2 + 1 := ⟨f2 - 1, by omega⟩
      simp only [tracebackFuel]
      set penalty := if ri + 1 = seq_a.length ∨ ci + 1 = seq_b.length then egp else gp with hpen
      split_ifs
      · rw [ih g2 ri ci (by omega) (by omega)]
      · rw [ih g2 (ri + 1) ci (by omega) (by omega)]
      · rw [ih g2 ri (ci + 1) (by omega) (by omega)]
      · rfl

theorem traceback_zero_zero {α : Type} [DecidableEq α] (matrix : Nat → Nat → Int)
    (seq_a seq_b : Sequence α) (gp egp : Int) :
    traceback matrix seq_a seq_b gp egp 0 0 = [] := rfl

theorem traceback_zero_succ {α : Type} [DecidableEq α] (matrix : Nat → Nat → Int)
    (seq_a seq_b : Sequence α) (gp egp : Int) (ci : Nat) :
    traceback matrix seq_a seq_b gp egp 0 (ci + 1)
      = traceback matrix seq_a seq_b gp egp 0 ci ++ [(Gap, seq_b.motifs.getD ci Gap)] := rfl

theorem traceback_succ_zero {α : Type} [DecidableEq α] (matrix : Nat → Nat → Int)
    (seq_a seq_b : Sequence α) (gp egp : Int) (ri : Nat) :
    traceback matrix seq_a seq_b gp egp (ri + 1) 0
      = traceback matrix seq_a seq_b gp egp ri 0 ++ [(seq_a.motifs.getD ri Gap, Gap)] := rfl

theorem traceback_succ_succ {α : Type} [DecidableEq α] (matrix : Nat → Nat → Int)
    (seq_a seq_b : Sequence α) (gp egp : Int) (ri ci : Nat) :
    traceback matrix seq_a seq_b gp egp (ri + 1) (ci + 1)
      = if (seq_a.motifs.getD ri Gap).kind = (seq_b.motifs.getD ci Gap).kind
            ∨ matrix ri ci > max (matrix (ri + 1) ci) (matrix ri (ci + 1))
            ∨ (matrix ri (ci + 1) - matrix (ri + 1) (ci + 1)
                  ≠ (if ri + 1 = seq_a.length ∨ ci + 1 = seq_b.length then egp else gp)
                ∧ matrix (ri + 1) ci - matrix (ri + 1) (ci + 1)
                  ≠ (if ri + 1 = seq_a.length ∨ ci + 1 = seq_b.length then egp else gp)) then
          traceback matrix seq_a seq_b gp egp ri ci
            ++ [(seq_a.motifs.getD ri Gap, seq_b.motifs.getD ci Gap)]
        else if matrix (ri + 1) ci > matrix ri (ci + 1) then
          traceback matrix seq_a seq_b gp egp (ri + 1) ci ++ [(Gap, seq_b.motifs.getD ci Gap)]
        else if matrix ri (ci + 1) ≥ matrix (ri + 1) ci then
          traceback matrix seq_a seq_b gp egp ri (ci + 1) ++ [(seq_a.motifs.getD ri Gap, Gap)]
        else [] := by
  have hshow : traceback matrix seq_a seq_b gp egp (ri + 1) (ci + 1)
      = tracebackFuel matrix seq_a seq_b gp egp (((ri + 1) + ci) + 1) (ri + 1) (ci + 1) := rfl
  rw [hshow]
  simp only [tracebackFuel, traceback]
  set penalty := if ri + 1 = seq_a.length ∨ ci + 1 = seq_b.length then egp else gp with hpen
  split_ifs
  · rw [tracebackFuel_congr matrix seq_a seq_b gp egp ((ri + 1) + ci) (ri + ci) ri ci
      (by omega) (by omega)]
  · rfl
  · rw [tracebackFuel_congr matrix seq_a seq_b gp egp ((ri + 1) + ci) (ri + (ci + 1)) ri (ci + 1)
      (by omega) (by omega)]
  · rfl

theorem nwMatrixSpec_col0 {α : Type} (seq_a seq_b : Sequence α) (gp egp : Int)
    (f : Motif α → Motif α → Int) (i : Nat) :
    nwMatrixSpec seq_a seq_b gp egp f i 0 = (i : Int) * egp := by
  cases i <;> simp [nwMatrixSpec]

theorem nwMatrixSpec_row0 {α : Type} (seq_a seq_b : Sequence α) (gp egp : Int)
    (f : Motif α → Motif α → Int) (j : Nat) :
    nwMatrixSpec seq_a seq_b gp egp f 0 j = (j : Int) * egp := by
  cases j with
  | zero => simp [nwMatrixSpec]
  | succ j => simp [nwMatrixSpec]

theorem nwMatrixSpec_succ_succ {α : Type} (seq_a seq_b : Sequence α) (gp egp : Int)
    (f : Motif α → Motif α → Int) (i j : Nat) :
    nwMatrixSpec seq_a seq_b gp egp f (i + 1) (j + 1)
      = max (max (nwMatrixSpec seq_a seq_b gp egp f i (j + 1)
            - (if i + 1 = seq_a.length ∨ j + 1 = seq_b.length then egp else gp))
          (nwMatrixSpec seq_a seq_b gp egp f (i + 1) j
            - (if i + 1 = seq_a.length ∨ j + 1 = seq_b.length then egp else gp)))
        (nwMatrixSpec seq_a seq_b gp egp f i j
          + f (seq_a.motifs.getD i Gap) (seq_b.motifs.getD j Gap)) := by
  rw [nwMatrixSpec]

theorem foldl_col0_apply (g : Nat → Int) (n : Nat) (m : Nat → Nat → Int) (i j : Nat) :
    ((List.range n).foldl (fun m ri => setValue m ri 0 (g ri)) m) i j
      = if j = 0 ∧ i < n then g i else m i j := by
  induction n generalizing m with
  | zero => simp
  | succ n ih =>
    rw [List.range_succ, List.foldl_append, List.foldl_cons, List.foldl_nil, setValue_apply, ih]
    by_cases hi : i = n
    · subst hi
      by_cases hj : j = 0 <;> simp [hj]
    · have h1 : ¬(i = n ∧ j = 0) := by tauto
      simp only [h1, if_false]
      by_cases hj : j = 0
      · subst hj
        have h2 : i < n ↔ i < n + 1 := by omega
        simp [h2]
      · simp [hj]

theorem foldl_row0_apply (g : Nat → Int) (n : Nat) (m : Nat → Nat → Int) (i j : Nat) :
    ((List.range n).foldl (fun m ci => setValue m 0 ci (g ci)) m) i j
      = if i = 0 ∧ j < n then g j else m i j := by
  induction n generalizing m with
  | zero => simp
  | succ n ih =>
    rw [List.range_succ, List.foldl_append, List.foldl_cons, List.foldl_nil, setValue_apply, ih]
    by_cases hj : j = n
    · subst hj
      by_cases hi : i = 0 <;> simp [hi]
    · have h1 : ¬(i = 0 ∧ j = n) := by tauto
      simp only [h1, if_false]
      by_cases hi : i = 0
      · subst hi
        have h2 : j < n ↔ j < n + 1 := by omega
        simp [h2]
      · simp [hi]

theorem nwFillCol_inner_spec {α : Type} (seq_a seq_b : Sequence α) (gp egp : Int)
    (f : Motif α → Motif α → Int) (c : Nat) (hc : c < seq_b.length) :
    ∀ (k r : Nat) (m : Nat → Nat → Int), r + k ≤ seq_a.length →
    nwInv seq_a seq_b gp egp f c m →
    (∀ i, 1 ≤ i → i ≤ r → m i (c + 1) = nwMatrixSpec seq_a seq_b gp egp f i (c + 1)) →
    nwInv seq_a seq_b gp egp f c
        ((List.range' (r + 1) k).foldl
          (fun m ri => setValue m ri (c + 1) (nwCellValue seq_a seq_b gp egp f m ri (c + 1))) m)
      ∧ ∀ i, 1 ≤ i → i ≤ r + k →
        ((List.range' (r + 1) k).foldl
          (fun m ri => setValue m ri (c + 1) (nwCellValue seq_a seq_b gp egp f m ri (c + 1))) m)
          i (c + 1) = nwMatrixSpec seq_a seq_b gp egp f i (c + 1) := by
  intro k
  induction k with
  | zero =>
    intro r m _ H0 H1
    exact ⟨H0, fun i h1 h2 => H1 i h1 (by omega)⟩
  | succ k ih =>
    intro r m hrk H0 H1
    rw [List.range'_succ, List.foldl_cons]
    have hr1 : r + 1 ≤ seq_a.length := by omega
    have hval : nwCellValue seq_a seq_b gp egp f m (r + 1) (c + 1)
        = nwMatrixSpec seq_a seq_b gp egp f (r + 1) (c + 1) := by
      have hv : m r (c + 1) = nwMatrixSpec seq_a seq_b gp egp f r (c + 1) := by
        rcases Nat.eq_zero_or_pos r with h0 | hpos
        · subst h0
          exact H0 0 (c + 1) (by omega) (by omega) (Or.inl rfl)
        · exact H1 r (by omega) (by omega)
      have hh : m (r + 1) c = nwMatrixSpec seq_a seq_b gp egp f (r + 1) c :=
        H0 (r + 1) c hr1 (by omega) (Or.inr (by omega))
      have hd : m r c = nwMatrixSpec seq_a seq_b gp egp f r c :=
        H0 r c (by omega) (by omega) (Or.inr (by omega))
      have hp : (if c + 1 = seq_b.length ∨ r + 1 = seq_a.length then egp else gp)
          = (if r + 1 = seq_a.length ∨ c + 1 = seq_b.length then egp else gp) := by
        by_cases h : c + 1 = seq_b.length ∨ r + 1 = seq_a.length
        · rw [if_pos h, if_pos h.symm]
        · rw [if_neg h, if_neg (fun h2 => h h2.symm)]
      unfold nwCellValue
      simp only [Nat.add_sub_cancel]
      rw [hv, hh, hd, hp, nwMatrixSpec_succ_succ]
    have H0m : nwInv seq_a seq_b gp egp f c
        (setValue m (r + 1) (c + 1) (nwCellValue seq_a seq_b gp egp f m (r + 1) (c + 1))) := by
      intro i j hi hj hij
      rw [setValue_apply]
      have : ¬(i = r + 1 ∧ j = c + 1) := by
        rcases hij with h | h
        · intro hcon; omega
        · intro hcon; omega
      rw [if_neg this]
      exact H0 i j hi hj hij
    have H1m : ∀ i, 1 ≤ i → i ≤ r + 1 →
        (setValue m (r + 1) (c + 1) (nwCellValue seq_a seq_b gp egp f m (r + 1) (c + 1))) i (c + 1)
          = nwMatrixSpec seq_a seq_b gp egp f i (c + 1) := by
      intro i h1 h2
      rw [setValue_apply]
      by_cases hi : i = r + 1
      · subst hi
        rw [if_pos ⟨rfl, rfl⟩]
        exact hval
      · rw [if_neg (fun hcon => hi hcon.1)]
        exact H1 i h1 (by omega)
    have := ih (r + 1)
      (setValue m (r + 1) (c + 1) (nwCellValue seq_a seq_b gp egp f m (r + 1) (c + 1)))
      (by omega) H0m H1m
    refine ⟨this.1, fun i h1 h2 => this.2 i h1 (by omega)⟩

theorem nwFill_cols_spec {α : Type} (seq_a seq_b : Sequence α) (gp egp : Int)
    (f : Motif α → Motif α → Int) :
    ∀ (n c : Nat) (m : Nat → Nat → Int), c + n ≤ seq_b.length →
    nwInv seq_a seq_b gp egp f c m →
    nwInv seq_a seq_b gp egp f (c + n)
      ((List.range' (c + 1) n).foldl (nwFillCol seq_a seq_b gp egp f) m) := by
  intro n
  induction n with
  | zero => intro c m _ H; simpa using H
  | succ n ih =>
    intro c m hcn H
    rw [List.range'_succ, List.foldl_cons]
    have hc : c < seq_b.length := by omega
    have hcol := nwFillCol_inner_spec seq_a seq_b gp egp f c hc seq_a.length 0 m
      (by omega) H (by intro i h1 h2; omega)
    have Hnext : nwInv seq_a seq_b gp egp f (c + 1) (nwFillCol seq_a seq_b gp egp f m (c + 1)) := by
      intro i j hi hj hij
      rcases hij with h0 | hj2
      · exact hcol.1 i j hi hj (Or.inl h0)
      · by_cases hjc : j ≤ c
        · exact hcol.1 i j hi hj (Or.inr hjc)
        · have hj3 : j = c + 1 := by omega
          subst hj3
          rcases Nat.eq_zero_or_pos i with h0 | hpos
          · exact hcol.1 i (c + 1) hi hj (Or.inl h0)
          · exact hcol.2 i (by omega) (by omega)
    have := ih (c + 1) (nwFillCol seq_a seq_b gp egp f m (c + 1)) (by omega) Hnext
    have harith : c + 1 + n = c + (n + 1) := by omega
    rw [harith] at this
    exact this

theorem create_matrix_spec {α : Type} (seq_a seq_b : Sequence α) (gp egp : Int)
    (f : Motif α → Motif α → Int) (i j : Nat) (hi : i ≤ seq_a.length) (hj : j ≤ seq_b.length) :
    create_alignment_matrix_needelman_wunsch seq_a seq_b gp egp f i j
      = nwMatrixSpec seq_a seq_b gp egp f i j := by
  have hinit : nwInv seq_a seq_b gp egp f 0
      ((List.range (seq_b.length + 1)).foldl
        (fun m ci => setValue m 0 ci ((ci : Int) * egp))
        ((List.range (seq_a.length + 1)).foldl
          (fun m ri => setValue m ri 0 ((ri : Int) * egp)) (fun _ _ => 0))) := by
    intro a b ha hb hab
    rw [foldl_row0_apply, foldl_col0_apply]
    rcases hab with h0 | h0
    · subst h0
      rw [if_pos ⟨rfl, by omega⟩, nwMatrixSpec_row0]
    · have hb0 : b = 0 := by omega
      subst hb0
      rcases Nat.eq_zero_or_pos a with ha0 | hpos
      · subst ha0
        rw [if_pos ⟨rfl, by omega⟩, nwMatrixSpec_row0]
      · rw [if_neg (by omega), if_pos ⟨rfl, by omega⟩, nwMatrixSpec_col0]
  have hmain := nwFill_cols_spec seq_a seq_b gp egp f seq_b.length 0 _ (by omega) hinit
  have hcreate : create_alignment_matrix_needelman_wunsch seq_a seq_b gp egp f
      = (List.range' (0 + 1) seq_b.length).foldl (nwFillCol seq_a seq_b gp egp f)
        ((List.range (seq_b.length + 1)).foldl
          (fun m ci => setValue m 0 ci ((ci : Int) * egp))
          ((List.range (seq_a.length + 1)).foldl
            (fun m ri => setValue m ri 0 ((ri : Int) * egp)) (fun _ _ => 0))) := rfl
  rw [hcreate]
  exact hmain i j hi hj (Or.inr (by omega))

/-- C2: the score returned by needleman_wunsch is the bottom right cell of
the (len A + 1) x (len B + 1) matrix given by the recurrence of the
specification: border cells are cumulative end gap penalties and an
interior cell maximises the three moves, with the end gap penalty applied
on the last sequence row or column. -/
theorem c2_needleman_wunsch_score_is_spec_recurrence {α : Type} [DecidableEq α]
    (seq_a seq_b : Sequence α) (gap_penalty end_gap_penalty : Int)
    (score_func : Motif α → Motif α → Int) :
    (needleman_wunsch seq_a seq_b score_func gap_penalty end_gap_penalty).2.2
      = nwMatrixSpec seq_a seq_b gap_penalty end_gap_penalty score_func
        seq_a.length seq_b.length := by
  have : (needleman_wunsch seq_a seq_b score_func gap_penalty end_gap_penalty).2.2
      = create_alignment_matrix_needelman_wunsch seq_a seq_b gap_penalty end_gap_penalty score_func
        seq_a.length seq_b.length := rfl
  rw [this]
  exact create_matrix_spec seq_a seq_b gap_penalty end_gap_penalty score_func _ _
    (by omega) (by omega)

/-- C4: the Needleman-Wunsch traceback follows exactly the decision order of
the specification: at (0, 0) it stops; on row 0 or column 0 it emits a gap
in the exhausted sequence; at an interior cell it takes the diagonal move
precisely under the spec worded diagonal condition, otherwise horizontal
when the horizontal cell strictly exceeds the vertical one, otherwise
vertical; the ValueError arm of the source is never taken. -/
theorem c4_traceback_decision_order {α : Type} [DecidableEq α] (matrix : Nat → Nat → Int)
    (seq_a seq_b : Sequence α) (gap_penalty end_gap_penalty : Int) :
    (traceback matrix seq_a seq_b gap_penalty end_gap_penalty 0 0 = [])
    ∧ (∀ ci, traceback matrix seq_a seq_b gap_penalty end_gap_penalty 0 (ci + 1)
        = traceback matrix seq_a seq_b gap_penalty end_gap_penalty 0 ci
          ++ [(Gap, seq_b.motifs.getD ci Gap)])
    ∧ (∀ ri, traceback matrix seq_a seq_b gap_penalty end_gap_penalty (ri + 1) 0
        = traceback matrix seq_a seq_b gap_penalty end_gap_penalty ri 0
          ++ [(seq_a.motifs.getD ri Gap, Gap)])
    ∧ ∀ ri ci,
        (specDiagMove seq_a seq_b matrix
            (if ri + 1 = seq_a.length ∨ ci + 1 = seq_b.length then end_gap_penalty else gap_penalty)
            (ri + 1) (ci + 1) →
          traceback matrix seq_a seq_b gap_penalty end_gap_penalty (ri + 1) (ci + 1)
            = traceback matrix seq_a seq_b gap_penalty end_gap_penalty ri ci
              ++ [(seq_a.motifs.getD ri Gap, seq_b.motifs.getD ci Gap)])
        ∧ (¬ specDiagMove seq_a seq_b matrix
            (if ri + 1 = seq_a.length ∨ ci + 1 = seq_b.length then end_gap_penalty else gap_penalty)
            (ri + 1) (ci + 1) →
          matrix (ri + 1) ci > matrix ri (ci + 1) →
          traceback matrix seq_a seq_b gap_penalty end_gap_penalty (ri + 1) (ci + 1)
            = traceback matrix seq_a seq_b gap_penalty end_gap_penalty (ri + 1) ci
              ++ [(Gap, seq_b.motifs.getD ci Gap)])
        ∧ (¬ specDiagMove seq_a seq_b matrix
            (if ri + 1 = seq_a.length ∨ ci + 1 = seq_b.length then end_gap_penalty else gap_penalty)
            (ri + 1) (ci + 1) →
          ¬ (matrix (ri + 1) ci > matrix ri (ci + 1)) →
          traceback matrix seq_a seq_b gap_penalty end_gap_penalty (ri + 1) (ci + 1)
            = traceback matrix seq_a seq_b gap_penalty end_gap_penalty ri (ci + 1)
              ++ [(seq_a.motifs.getD ri Gap, Gap)]) := by
  refine ⟨traceback_zero_zero matrix seq_a seq_b gap_penalty end_gap_penalty,
    traceback_zero_succ matrix seq_a seq_b gap_penalty end_gap_penalty,
    traceback_succ_zero matrix seq_a seq_b gap_penalty end_gap_penalty, ?_⟩
  intro ri ci
  have hcond : ((seq_a.motifs.getD ri Gap).kind = (seq_b.motifs.getD ci Gap).kind
        ∨ matrix ri ci > max (matrix (ri + 1) ci) (matrix ri (ci + 1))
        ∨ (matrix ri (ci + 1) - matrix (ri + 1) (ci + 1)
              ≠ (if ri + 1 = seq_a.length ∨ ci + 1 = seq_b.length then end_gap_penalty else gap_penalty)
            ∧ matrix (ri + 1) ci - matrix (ri + 1) (ci + 1)
              ≠ (if ri + 1 = seq_a.length ∨ ci + 1 = seq_b.length then end_gap_penalty else gap_penalty)))
      ↔ specDiagMove seq_a seq_b matrix
          (if ri + 1 = seq_a.length ∨ ci + 1 = seq_b.length then end_gap_penalty else gap_penalty)
          (ri + 1) (ci + 1) := by
    unfold specDiagMove
    simp only [Nat.add_sub_cancel]
    constructor
    · rintro (h | h | h)
      · exact Or.inl h
      · exact Or.inr (Or.inl ⟨(max_lt_iff.mp h).2, (max_lt_iff.mp h).1⟩)
      · exact Or.inr (Or.inr h)
    · rintro (h | h | h)
      · exact Or.inl h
      · exact Or.inr (Or.inl (max_lt_iff.mpr ⟨h.2, h.1⟩))
      · exact Or.inr (Or.inr h)
  refine ⟨?_, ?_, ?_⟩
  · intro hspec
    rw [traceback_succ_succ, if_pos (hcond.mpr hspec)]
  · intro hspec hhv
    rw [traceback_succ_succ, if_neg (fun h => hspec (hcond.mp h)), if_pos hhv]
  · intro hspec hhv
    rw [traceback_succ_succ, if_neg (fun h => hspec (hcond.mp h)), if_neg hhv,
      if_pos (le_of_not_lt hhv)]

/-- Witness for C4 at a concrete interior cell where the motifs are equal,
so the diagonal branch is prescribed. -/
theorem c4_traceback_decision_order_witness :
    traceback (fun _ _ => 0) (⟨"a", [chA]⟩ : Sequence Char) ⟨"b", [chA]⟩ 2 1 1 1
      = traceback (fun _ _ => 0) (⟨"a", [chA]⟩ : Sequence Char) ⟨"b", [chA]⟩ 2 1 0 0
        ++ [(chA, chA)] := by
  have h := (c4_traceback_decision_order (fun _ _ => 0) (⟨"a", [chA]⟩ : Sequence Char)
    ⟨"b", [chA]⟩ 2 1).2.2.2 0 0
  exact h.1 (Or.inl rfl)

theorem take_succ_getD {β : Type} (l : List β) (d : β) :
    ∀ i, i < l.length → l.take (i + 1) = l.take i ++ [l.getD i d] := by
  induction l with
  | nil => intro i h; simp at h
  | cons x xs ih =>
    intro i h
    cases i with
    | zero => simp [List.getD]
    | succ i =>
      have h2 : i < xs.length := by simpa using h
      simp [ih i h2]

theorem traceback_map_fst_filter {α : Type} [DecidableEq α] (matrix : Nat → Nat → Int)
    (seq_a seq_b : Sequence α) (gp egp : Int) :
    ∀ (n ri ci : Nat), ri + ci ≤ n → ri ≤ seq_a.length → ci ≤ seq_b.length →
    ((traceback matrix seq_a seq_b gp egp ri ci).map Prod.fst).filter (fun mo => !(isGap mo))
      = (seq_a.motifs.take ri).filter (fun mo => !(isGap mo)) := by
  intro n
  induction n with
  | zero =>
    intro ri ci h _ _
    have h1 : ri = 0 := by omega
    have h2 : ci = 0 := by omega
    subst h1; subst h2
    simp [traceback_zero_zero]
  | succ n ih =>
    intro ri ci hsum hri hci
    match ri, ci with
    | 0, 0 => simp [traceback_zero_zero]
    | 0, ci + 1 =>
      rw [traceback_zero_succ]
      simp only [List.map_append, List.filter_append]
      rw [ih 0 ci (by omega) (by omega) (by omega)]
      simp [isGap, Gap]
    | ri + 1, 0 =>
      rw [traceback_succ_zero]
      simp only [List.map_append, List.filter_append]
      rw [ih ri 0 (by omega) (by omega) (by omega),
        take_succ_getD seq_a.motifs Gap ri (by simpa [Sequence.length] using hri)]
      simp [List.filter_append]
    | ri + 1, ci + 1 =>
      rw [traceback_succ_succ]
      set penalty := if ri + 1 = seq_a.length ∨ ci + 1 = seq_b.length then egp else gp with hpen
      split_ifs with h1 h2 h3
      · simp only [List.map_append, List.filter_append]
        rw [ih ri ci (by omega) (by omega) (by omega),
          take_succ_getD seq_a.motifs Gap ri (by simpa [Sequence.length] using hri)]
        simp [List.filter_append]
      · simp only [List.map_append, List.filter_append]
        rw [ih (ri + 1) ci (by omega) (by omega) (by omega)]
        simp [isGap, Gap]
      · simp only [List.map_append, List.filter_append]
        rw [ih ri (ci + 1) (by omega) (by omega) (by omega),
          take_succ_getD seq_a.motifs Gap ri (by simpa [Sequence.length] using hri)]
        simp [List.filter_append]
      · exact absurd (le_of_not_lt h2) (fun hle => h3 hle)

theorem traceback_map_snd_filter {α : Type} [DecidableEq α] (matrix : Nat → Nat → Int)
    (seq_a seq_b : Sequence α) (gp egp : Int) :
    ∀ (n ri ci : Nat), ri + ci ≤ n → ri ≤ seq_a.length → ci ≤ seq_b.length →
    ((traceback matrix seq_a seq_b gp egp ri ci).map Prod.snd).filter (fun mo => !(isGap mo))
      = (seq_b.motifs.take ci).filter (fun mo => !(isGap mo)) := by
  intro n
  induction n with
  | zero =>
    intro ri ci h _ _
    have h1 : ri = 0 := by omega
    have h2 : ci = 0 := by omega
    subst h1; subst h2
    simp [traceback_zero_zero]
  | succ n ih =>
    intro ri ci hsum hri hci
    match ri, ci with
    | 0, 0 => simp [traceback_zero_zero]
    | 0, ci + 1 =>
      rw [traceback_zero_succ]
      simp only [List.map_append, List.filter_append]
      rw [ih 0 ci (by omega) (by omega) (by omega),
        take_succ_getD seq_b.motifs Gap ci (by simpa [Sequence.length] using hci)]
      simp [List.filter_append]
    | ri + 1, 0 =>
      rw [traceback_succ_zero]
      simp only [List.map_append, List.filter_append]
      rw [ih ri 0 (by omega) (by omega) (by omega)]
      simp [isGap, Gap]
    | ri + 1, ci + 1 =>
      rw [traceback_succ_succ]
      set penalty := if ri + 1 = seq_a.length ∨ ci + 1 = seq_b.length then egp else gp with hpen
      split_ifs with h1 h2 h3
      · simp only [List.map_append, List.filter_append]
        rw [ih ri ci (by omega) (by omega) (by omega),
          take_succ_getD seq_b.motifs Gap ci (by simpa [Sequence.length] using hci)]
        simp [List.filter_append]
      · simp only [List.map_append, List.filter_append]
        rw [ih (ri + 1) ci (by omega) (by omega) (by omega),
          take_succ_getD seq_b.motifs Gap ci (by simpa [Sequence.length] using hci)]
        simp [List.filter_append]
      · simp only [List.map_append, List.filter_append]
        rw [ih ri (ci + 1) (by omega) (by omega) (by omega)]
        simp [isGap, Gap]
      · exact absurd (le_of_not_lt h2) (fun hle => h3 hle)

/-- C3 counterexample: in LOCAL mode the aligned output covers only the
locally aligned subsequence, so removing the Gaps from the aligned second
output of smith_waterman on A against BA yields A only, not the original
B, A motifs. -/
theorem c3_counterexample_local_mode :
    (smith_waterman (⟨"seq_a", [chA]⟩ : Sequence Char) ⟨"seq_b", [chB, chA]⟩
        simpleScore 2).toOption.map
        (fun r => r.2.1.motifs.filter (fun mo => !(isGap mo)))
      = some [chA]
    ∧ [chA] ≠ [chB, chA] := by
  constructor
  · decide
  · decide

/-- C3 amended: in GLOBAL mode, and for input sequences that contain no Gap
motifs (the stated caller invariant on inputs), removing all Gap motifs
from each aligned output of the pairwise alignment reproduces exactly the
corresponding input motifs in their original order. -/
theorem c3_global_roundtrip {α : Type} [DecidableEq α] (seq_a seq_b : Sequence α)
    (score_func : Motif α → Motif α → Int) (gap_penalty end_gap_penalty : Int)
    (ha : ∀ mo ∈ seq_a.motifs, isGap mo = false)
    (hb : ∀ mo ∈ seq_b.motifs, isGap mo = false) :
    (needleman_wunsch seq_a seq_b score_func gap_penalty end_gap_penalty).1.motifs.filter
        (fun mo => !(isGap mo)) = seq_a.motifs
    ∧ (needleman_wunsch seq_a seq_b score_func gap_penalty end_gap_penalty).2.1.motifs.filter
        (fun mo => !(isGap mo)) = seq_b.motifs := by
  constructor
  · have h := traceback_map_fst_filter
      (create_alignment_matrix_needelman_wunsch seq_a seq_b gap_penalty end_gap_penalty score_func)
      seq_a seq_b gap_penalty end_gap_penalty (seq_a.length + seq_b.length)
      seq_a.length seq_b.length (by omega) (by omega) (by omega)
    have hmotifs : (needleman_wunsch seq_a seq_b score_func gap_penalty end_gap_penalty).1.motifs
        = (traceback
            (create_alignment_matrix_needelman_wunsch seq_a seq_b gap_penalty end_gap_penalty score_func)
            seq_a seq_b gap_penalty end_gap_penalty seq_a.length seq_b.length).map Prod.fst := rfl
    rw [hmotifs, h]
    have ht : seq_a.motifs.take seq_a.length = seq_a.motifs := by
      simp [Sequence.length]
    rw [ht]
    rw [List.filter_eq_self]
    intro mo hmo
    simp [ha mo hmo]
  · have h := traceback_map_snd_filter
      (create_alignment_matrix_needelman_wunsch seq_a seq_b gap_penalty end_gap_penalty score_func)
      seq_a seq_b gap_penalty end_gap_penalty (seq_a.length + seq_b.length)
      seq_a.length seq_b.length (by omega) (by omega) (by omega)
    have hmotifs : (needleman_wunsch seq_a seq_b score_func gap_penalty end_gap_penalty).2.1.motifs
        = (traceback
            (create_alignment_matrix_needelman_wunsch seq_a seq_b gap_penalty end_gap_penalty score_func)
            seq_a seq_b gap_penalty end_gap_penalty seq_a.length seq_b.length).map Prod.snd := rfl
    rw [hmotifs, h]
    have ht : seq_b.motifs.take seq_b.length = seq_b.motifs := by
      simp [Sequence.length]
    rw [ht]
    rw [List.filter_eq_self]
    intro mo hmo
    simp [hb mo hmo]

/-- Witness for the amended C3 on two concrete gap free inputs. -/
theorem c3_global_roundtrip_witness :
    (needleman_wunsch (⟨"seq_a", [chA]⟩ : Sequence Char) ⟨"seq_b", [chB]⟩
        simpleScore 2 1).1.motifs.filter (fun mo => !(isGap mo)) = [chA]
    ∧ (needleman_wunsch (⟨"seq_a", [chA]⟩ : Sequence Char) ⟨"seq_b", [chB]⟩
        simpleScore 2 1).2.1.motifs.filter (fun mo => !(isGap mo)) = [chB] :=
  c3_global_roundtrip ⟨"seq_a", [chA]⟩ ⟨"seq_b", [chB]⟩ simpleScore 2 1
    (by decide) (by decide)

/-- C5: with gap penalty 2, end gap penalty 1 and the plus one, minus one
score, global alignment of AAAA against BBBB yields the pair of aligned
sequences with four leading gaps before the As and four trailing gaps after
the Bs. -/
theorem c5_aaaa_bbbb_alignment :
    (needleman_wunsch (⟨"seq_a", [chA, chA, chA, chA]⟩ : Sequence Char)
        ⟨"seq_b", [chB, chB, chB, chB]⟩ simpleScore 2 1).1
      = ⟨"seq_a", [Gap, Gap, Gap, Gap, chA, chA, chA, chA]⟩
    ∧ (needleman_wunsch (⟨"seq_a", [chA, chA, chA, chA]⟩ : Sequence Char)
        ⟨"seq_b", [chB, chB, chB, chB]⟩ simpleScore 2 1).2.1
      = ⟨"seq_b", [chB, chB, chB, chB, Gap, Gap, Gap, Gap]⟩ := by
  constructor <;> decide

theorem tagMotifsFrom_getD {α : Type} (l : List (Motif α)) :
    ∀ (k i : Nat), i < l.length →
    (tagMotifsFrom k l).getD i Gap = ⟨(l.getD i Gap).kind, some (k + i)⟩ := by
  induction l with
  | nil => intro k i h; simp at h
  | cons m ms ih =>
    intro k i h
    cases i with
    | zero => simp [tagMotifsFrom, List.getD]
    | succ i =>
      have h2 : i < ms.length := by simpa using h
      have harith : k + 1 + i = k + (i + 1) := by omega
      simp only [tagMotifsFrom, List.getD_cons_succ]
      rw [ih (k + 1) i h2, harith]

theorem clearMotifs_getD {α : Type} (l : List (Motif α)) :
    ∀ i, i < l.length →
    (l.map (fun m => (⟨m.kind, none⟩ : Motif α))).getD i Gap = ⟨(l.getD i Gap).kind, none⟩ := by
  induction l with
  | nil => intro i h; simp at h
  | cons m ms ih =>
    intro i h
    cases i with
    | zero => simp [List.getD]
    | succ i =>
      have h2 : i < ms.length := by simpa using h
      simp only [List.map_cons, List.getD_cons_succ]
      exact ih i h2

/-- C6 counterexample: tagging a sequence that contains a Gap (exactly what
the MSA merge steps do to cluster members) gives that Gap a tag, so a Gap
does not stay untagged across every engine operation. -/
theorem c6_counterexample_tagging_tags_gaps :
    (((⟨"s", [Gap]⟩ : Sequence Char).tag).motifs.getD 0 Gap).tag = some 0
    ∧ some 0 ≠ (none : Option Nat) := by
  constructor
  · rfl
  · decide

/-- C6 amended: a Gap is untagged at construction and equals exactly the
motifs that are Gaps, but Sequence.tag, the tagging used on cluster members
during MSA merge steps, assigns every motif including Gaps its positional
index as tag (this is what lets the merge distinguish old gap columns from
new ones), and clear_tags resets every tag to None. -/
theorem c6_gap_untagged_at_construction {α : Type} :
    ((Gap : Motif α).tag = none)
    ∧ (∀ m : Motif α, isGap m = true ↔ m.kind = MotifKind.gap)
    ∧ (∀ (s : Sequence α) (i : Nat), i < s.length → ((s.tag).motifs.getD i Gap).tag = some i)
    ∧ (∀ (s : Sequence α) (i : Nat), i < s.length →
        ((s.clear_tags).motifs.getD i Gap).tag = none) := by
  refine ⟨rfl, ?_, ?_, ?_⟩
  · intro m
    cases m with
    | mk k t => cases k <;> simp [isGap]
  · intro s i h
    have h2 : i < s.motifs.length := h
    show ((tagMotifsFrom 0 s.motifs).getD i Gap).tag = some i
    rw [tagMotifsFrom_getD s.motifs 0 i h2]
    simp
  · intro s i h
    have h2 : i < s.motifs.length := h
    show ((s.motifs.map (fun m => (⟨m.kind, none⟩ : Motif α))).getD i Gap).tag = none
    rw [clearMotifs_getD s.motifs i h2]

/-- Witness for the amended C6 at a concrete sequence holding one Gap. -/
theorem c6_gap_untagged_at_construction_witness :
    0 < (⟨"s", [Gap]⟩ : Sequence Char).length
    ∧ (((⟨"s", [Gap]⟩ : Sequence Char).tag).motifs.getD 0 Gap).tag = some 0 :=
  ⟨by decide, (c6_gap_untagged_at_construction).2.2.1 ⟨"s", [Gap]⟩ 0 (by decide)⟩

theorem setValue_pair_symm (m : Nat → Nat → Int) (i j : Nat) (v : Int)
    (h : ∀ x y, m x y = m y x) (a b : Nat) :
    setValue (setValue m i j v) j i v a b = setValue (setValue m i j v) j i v b a := by
  simp only [setValue_apply]
  split_ifs <;> first | rfl | exact h a b | tauto

theorem foldl_symm_preserve {β : Type} (step : (Nat → Nat → Int) → β → (Nat → Nat → Int))
    (hstep : ∀ m x, (∀ a b, m a b = m b a) → ∀ a b, step m x a b = step m x b a)
    (l : List β) : ∀ m, (∀ a b, m a b = m b a) → ∀ a b, l.foldl step m a b = l.foldl step m b a := by
  induction l with
  | nil => intro m h; exact h
  | cons x xs ih => intro m h; exact ih (step m x) (hstep m x h)

theorem pairwise_scoring_matrix_unfold {α : Type} (seqs : List (Sequence α))
    (gp egp : Int) (f : Motif α → Motif α → Int) :
    pairwise_scoring_matrix seqs gp egp f
      = (List.range seqs.length).foldl (fun m i =>
          (List.range seqs.length).foldl (fun m j =>
            if j < i then m
            else
              let seq_a := seqs.getD i ⟨"", []⟩
              let seq_b := seqs.getD j ⟨"", []⟩
              let score := alignment_score seq_a seq_b
                (create_alignment_matrix_needelman_wunsch seq_a seq_b gp egp f)
              setValue (setValue m i j score) j i score) m)
        (fun _ _ => 0) := rfl

theorem pairwise_scoring_matrix_symm {α : Type} (seqs : List (Sequence α))
    (gp egp : Int) (f : Motif α → Motif α → Int) (a b : Nat) :
    pairwise_scoring_matrix seqs gp egp f a b = pairwise_scoring_matrix seqs gp egp f b a := by
  rw [pairwise_scoring_matrix_unfold]
  refine foldl_symm_preserve _ ?_ (List.range seqs.length) (fun _ _ => 0)
    (fun x y => rfl) a b
  intro m i hm
  refine foldl_symm_preserve _ ?_ _ _ hm
  intro m j hm2 x y
  by_cases hj : j < i
  · simp only [if_pos hj]
    exact hm2 x y
  · simp only [if_neg hj]
    exact setValue_pair_symm m i j _ hm2 x y

theorem foldl_diag_formula {β : Type} (step : (Nat → Nat → Int) → β → (Nat → Nat → Int))
    (Q : β → Nat → Prop) [∀ x a, Decidable (Q x a)] (V : Nat → Int)
    (hstep : ∀ m x a, step m x a a = if Q x a then V a else m a a) :
    ∀ (l : List β) (m : Nat → Nat → Int) (a : Nat),
    (l.foldl step m) a a = if ∃ x ∈ l, Q x a then V a else m a a := by
  intro l
  induction l with
  | nil => intro m a; simp
  | cons x xs ih =>
    intro m a
    rw [List.foldl_cons, ih]
    by_cases h1 : ∃ y ∈ xs, Q y a
    · obtain ⟨y, hy, hQ⟩ := h1
      rw [if_pos ⟨y, hy, hQ⟩, if_pos ⟨y, List.mem_cons_of_mem x hy, hQ⟩]
    · rw [if_neg h1, hstep]
      by_cases h2 : Q x a
      · rw [if_pos h2, if_pos ⟨x, List.mem_cons_self x xs, h2⟩]
      · rw [if_neg h2, if_neg ?_]
        rintro ⟨y, hy, hQ⟩
        rcases List.mem_cons.mp hy with rfl | hy2
        · exact h2 hQ
        · exact h1 ⟨y, hy2, hQ⟩

theorem psm_inner_step_diag {α : Type} (seqs : List (Sequence α)) (gp egp : Int)
    (f : Motif α → Motif α → Int) (i : Nat) (m : Nat → Nat → Int) (j a : Nat) :
    (if j < i then m
     else
       let seq_a := seqs.getD i ⟨"", []⟩
       let seq_b := seqs.getD j ⟨"", []⟩
       let score := alignment_score seq_a seq_b
         (create_alignment_matrix_needelman_wunsch seq_a seq_b gp egp f)
       setValue (setValue m i j score) j i score) a a
    = if a = i ∧ a = j then
        alignment_score (seqs.getD a ⟨"", []⟩) (seqs.getD a ⟨"", []⟩)
          (create_alignment_matrix_needelman_wunsch (seqs.getD a ⟨"", []⟩)
            (seqs.getD a ⟨"", []⟩) gp egp f)
      else m a a := by
  by_cases hji : j < i
  · simp only [if_pos hji]
    rw [if_neg (by rintro ⟨rfl, rfl⟩; omega)]
  · simp only [if_neg hji, setValue_apply]
    by_cases hc : a = i ∧ a = j
    · obtain ⟨h1, h2⟩ := hc
      subst h1; subst h2
      simp
    · have hc2 : ¬ (a = j ∧ a = i) := fun hh => hc ⟨hh.2, hh.1⟩
      rw [if_neg hc2, if_neg hc, if_neg hc]

theorem psm_outer_step_diag {α : Type} (seqs : List (Sequence α)) (gp egp : Int)
    (f : Motif α → Motif α → Int) (m : Nat → Nat → Int) (i a : Nat) :
    ((List.range seqs.length).foldl (fun m j =>
        if j < i then m
        else
          let seq_a := seqs.getD i ⟨"", []⟩
          let seq_b := seqs.getD j ⟨"", []⟩
          let score := alignment_score seq_a seq_b
            (create_alignment_matrix_needelman_wunsch seq_a seq_b gp egp f)
          setValue (setValue m i j score) j i score) m) a a
      = if a = i ∧ a < seqs.length then
          alignment_score (seqs.getD a ⟨"", []⟩) (seqs.getD a ⟨"", []⟩)
            (create_alignment_matrix_needelman_wunsch (seqs.getD a ⟨"", []⟩)
              (seqs.getD a ⟨"", []⟩) gp egp f)
        else m a a := by
  rw [foldl_diag_formula _ (fun j a => a = i ∧ a = j) _
    (fun m j a => psm_inner_step_diag seqs gp egp f i m j a) (List.range seqs.length) m a]
  have hiff : (∃ j ∈ List.range seqs.length, a = i ∧ a = j) ↔ (a = i ∧ a < seqs.length) := by
    constructor
    · rintro ⟨j, hj, rfl, rfl⟩
      exact ⟨rfl, List.mem_range.mp hj⟩
    · rintro ⟨rfl, hlt⟩
      exact ⟨a, List.mem_range.mpr hlt, rfl, rfl⟩
  rw [if_congr hiff rfl rfl]

theorem pairwise_scoring_matrix_diag {α : Type} (seqs : List (Sequence α))
    (gp egp : Int) (f : Motif α → Motif α → Int) (a : Nat) (ha : a < seqs.length) :
    pairwise_scoring_matrix seqs gp egp f a a
      = alignment_score (seqs.getD a ⟨"", []⟩) (seqs.getD a ⟨"", []⟩)
          (create_alignment_matrix_needelman_wunsch (seqs.getD a ⟨"", []⟩)
            (seqs.getD a ⟨"", []⟩) gp egp f) := by
  rw [pairwise_scoring_matrix_unfold]
  rw [foldl_diag_formula _ (fun i a => a = i ∧ a < seqs.length) _
    (fun m i a => psm_outer_step_diag seqs gp egp f m i a) (List.range seqs.length)
    (fun _ _ => 0) a]
  rw [if_pos ⟨a, List.mem_range.mpr ha, rfl, ha⟩]

/-- C7 counterexample: the diagonal of the pairwise similarity matrix is not
zero; it holds the global self alignment score, here 2 for the sequence AA
with the plus one, minus one score. -/
theorem c7_counterexample_diagonal_not_zero :
    (pairwise_scoring_matrix [(⟨"seq_a", [chA, chA]⟩ : Sequence Char)] 2 1 simpleScore) 0 0 = 2
    ∧ (2 : Int) ≠ 0 := by
  constructor
  · rfl
  · decide

/-- C7 amended: for every list of k sequences the all pairs matrix computed
by pairwise_scoring_matrix is symmetric in its two indices, and each
diagonal entry (i, i) with i < k equals the Needleman-Wunsch self alignment
score of sequence i (in general nonzero), not zero. -/
theorem c7_scoring_matrix_symmetric_selfscore_diag {α : Type} (seqs : List (Sequence α))
    (gp egp : Int) (f : Motif α → Motif α → Int) :
    (∀ i j, pairwise_scoring_matrix seqs gp egp f i j = pairwise_scoring_matrix seqs gp egp f j i)
    ∧ (∀ i, i < seqs.length →
        pairwise_scoring_matrix seqs gp egp f i i
          = alignment_score (seqs.getD i ⟨"", []⟩) (seqs.getD i ⟨"", []⟩)
              (create_alignment_matrix_needelman_wunsch (seqs.getD i ⟨"", []⟩)
                (seqs.getD i ⟨"", []⟩) gp egp f)) :=
  ⟨pairwise_scoring_matrix_symm seqs gp egp f,
   fun i hi => pairwise_scoring_matrix_diag seqs gp egp f i hi⟩

/-- Witness for the amended C7 at one concrete sequence list. -/
theorem c7_scoring_matrix_witness :
    0 < ([(⟨"seq_a", [chA, chA]⟩ : Sequence Char)] : List (Sequence Char)).length
    ∧ (pairwise_scoring_matrix [(⟨"seq_a", [chA, chA]⟩ : Sequence Char)] 2 1 simpleScore) 0 0
      = alignment_score (⟨"seq_a", [chA, chA]⟩ : Sequence Char) ⟨"seq_a", [chA, chA]⟩
          (create_alignment_matrix_needelman_wunsch (⟨"seq_a", [chA, chA]⟩ : Sequence Char)
            ⟨"seq_a", [chA, chA]⟩ 2 1 simpleScore) :=
  ⟨by decide,
   (c7_scoring_matrix_symmetric_selfscore_diag
     [(⟨"seq_a", [chA, chA]⟩ : Sequence Char)] 2 1 simpleScore).2 0 (by decide)⟩

/-- C8: the degenerate MSA cases: an empty input list yields an empty
result, and a single sequence is returned unchanged, with no gaps inserted
and no tags modified, whatever the penalties, score function and guide
tree. -/
theorem c8_msa_degenerate_cases {α : Type} [DecidableEq α] (gp egp : Int)
    (f : Motif α → Motif α → Int) (guide_tree : List (Nat × Nat)) :
    multiple_sequence_alignment ([] : List (Sequence α)) gp egp f guide_tree = some []
    ∧ ∀ (s : Sequence α), multiple_sequence_alignment [s] gp egp f guide_tree = some [s] := by
  constructor
  · rfl
  · intro s
    rfl

/-- C1: a concrete successful run of the MSA whose output sequences do not
all have the same length.  The crossed tuple unpacking in the else branch
of merge_clusters propagates the new gap columns of each aligned anchor
into the opposite cluster, so with member lengths 2 and 4 the final
cluster holds sequences of lengths 10, 6, 6 and 2 even though exactly one
cluster remains and the call returns normally. -/
theorem c1_msa_success_with_unequal_lengths :
    (multiple_sequence_alignment
        [(⟨"s0", [chA, chA]⟩ : Sequence Char), ⟨"s1", [chA, chA]⟩,
          ⟨"s2", [chB, chB, chB, chB]⟩, ⟨"s3", [chA, chA, chB, chB]⟩]
        2 1 strongScore [(0, 1), (2, 3), (4, 5)]).map (fun out => out.map Sequence.length)
      = some [10, 6, 6, 2]
    ∧ (10 : Nat) ≠ 2 := by
  constructor
  · rfl
  · decide

theorem swCellStep_isSome {α : Type} (seq_a seq_b : Sequence α)
    (f : Motif α → Motif α → Int) (gp : Int) (ri : Nat)
    (st : (Nat → Nat → Int) × (Nat → Nat → Nat) × Option (Int × Nat × Nat)) (ci : Nat) :
    ((swCellStep seq_a seq_b f gp ri st ci).2.2).isSome = true := by
  unfold swCellStep
  cases h : st.2.2 with
  | none => simp [h]
  | some v =>
    obtain ⟨s, r0, c0⟩ := v
    simp only [h]
    split_ifs <;> simp

theorem swCells_foldl_isSome {α : Type} (seq_a seq_b : Sequence α)
    (f : Motif α → Motif α → Int) (gp : Int) (ri : Nat) :
    ∀ (l : List Nat) (st : (Nat → Nat → Int) × (Nat → Nat → Nat) × Option (Int × Nat × Nat)),
    st.2.2.isSome = true →
    ((l.foldl (swCellStep seq_a seq_b f gp ri) st).2.2).isSome = true := by
  intro l
  induction l with
  | nil => intro st h; exact h
  | cons x xs ih =>
    intro st _
    rw [List.foldl_cons]
    exact ih (swCellStep seq_a seq_b f gp ri st x) (swCellStep_isSome seq_a seq_b f gp ri st x)

theorem swCells_foldl_ne_nil_isSome {α : Type} (seq_a seq_b : Sequence α)
    (f : Motif α → Motif α → Int) (gp : Int) (ri : Nat)
    (l : List Nat) (hl : l ≠ [])
    (st : (Nat → Nat → Int) × (Nat → Nat → Nat) × Option (Int × Nat × Nat)) :
    ((l.foldl (swCellStep seq_a seq_b f gp ri) st).2.2).isSome = true := by
  cases l with
  | nil => exact absurd rfl hl
  | cons x xs =>
    rw [List.foldl_cons]
    exact swCells_foldl_isSome seq_a seq_b f gp ri xs _
      (swCellStep_isSome seq_a seq_b f gp ri st x)

theorem swRowStep_preserves_isSome {α : Type} (seq_a seq_b : Sequence α)
    (f : Motif α → Motif α → Int) (gp : Int)
    (st : (Nat → Nat → Int) × (Nat → Nat → Nat) × Option (Int × Nat × Nat)) (ri : Nat)
    (h : st.2.2.isSome = true) :
    ((swRowStep seq_a seq_b f gp st ri).2.2).isSome = true := by
  unfold swRowStep
  exact swCells_foldl_isSome seq_a seq_b f gp ri _ st h

theorem swRows_foldl_preserves_isSome {α : Type} (seq_a seq_b : Sequence α)
    (f : Motif α → Motif α → Int) (gp : Int) :
    ∀ (l : List Nat) (st : (Nat → Nat → Int) × (Nat → Nat → Nat) × Option (Int × Nat × Nat)),
    st.2.2.isSome = true →
    ((l.foldl (swRowStep seq_a seq_b f gp) st).2.2).isSome = true := by
  intro l
  induction l with
  | nil => intro st h; exact h
  | cons x xs ih =>
    intro st h
    rw [List.foldl_cons]
    exact ih _ (swRowStep_preserves_isSome seq_a seq_b f gp st x h)

theorem swFill_isSome {α : Type} (seq_a seq_b : Sequence α)
    (f : Motif α → Motif α → Int) (gp : Int)
    (hA : seq_a.length ≠ 0) (hB : seq_b.length ≠ 0) :
    ((swFill seq_a seq_b f gp).2.2).isSome = true := by
  unfold swFill
  obtain ⟨k, hk⟩ : ∃ k, seq_a.length = k + 1 := ⟨seq_a.length - 1, by omega⟩
  rw [hk, List.range'_succ, List.foldl_cons]
  apply swRows_foldl_preserves_isSome
  unfold swRowStep
  apply swCells_foldl_ne_nil_isSome
  intro hnil
  exact hB (by simpa using congrArg List.length hnil)

theorem swFill_none_left {α : Type} (seq_a seq_b : Sequence α)
    (f : Motif α → Motif α → Int) (gp : Int) (hA : seq_a.length = 0) :
    (swFill seq_a seq_b f gp).2.2 = none := by
  unfold swFill
  rw [hA]
  rfl

theorem swFill_none_right {α : Type} (seq_a seq_b : Sequence α)
    (f : Motif α → Motif α → Int) (gp : Int) (hB : seq_b.length = 0) :
    (swFill seq_a seq_b f gp).2.2 = none := by
  unfold swFill
  have hrow : ∀ st ri, swRowStep seq_a seq_b f gp st ri = st := by
    intro st ri
    unfold swRowStep
    rw [hB]
    rfl
  have hfold : ∀ (l : List Nat) st, l.foldl (swRowStep seq_a seq_b f gp) st = st := by
    intro l
    induction l with
    | nil => intro st; rfl
    | cons x xs ih =>
      intro st
      rw [List.foldl_cons, hrow]
      exact ih st
  rw [hfold]

/-- C10: smith_waterman raises (the error result) exactly when one of the
two input sequences is empty, because then the fill loops never run and the
maximum score is never set; on any pair of nonempty inputs it returns
normally. -/
theorem c10_smith_waterman_empty_raises {α : Type} [DecidableEq α]
    (seq_a seq_b : Sequence α) (score_func : Motif α → Motif α → Int) (gap_penalty : Int) :
    ((∃ e, smith_waterman seq_a seq_b score_func gap_penalty = Except.error e)
      ↔ (seq_a.motifs = [] ∨ seq_b.motifs = []))
    ∧ ((∃ r, smith_waterman seq_a seq_b score_func gap_penalty = Except.ok r)
      ↔ (seq_a.motifs ≠ [] ∧ seq_b.motifs ≠ [])) := by
  have hlen : (seq_a.motifs = [] ∨ seq_b.motifs = [])
      ↔ (seq_a.length = 0 ∨ seq_b.length = 0) := by
    simp [Sequence.length, List.length_eq_zero]
  by_cases h : seq_a.length = 0 ∨ seq_b.length = 0
  · have hnone : (swFill seq_a seq_b score_func gap_penalty).2.2 = none := by
      rcases h with h | h
      · exact swFill_none_left seq_a seq_b score_func gap_penalty h
      · exact swFill_none_right seq_a seq_b score_func gap_penalty h
    have herr : smith_waterman seq_a seq_b score_func gap_penalty
        = Except.error "Maximum score and its position not found." := by
      simp only [smith_waterman, hnone]
    constructor
    · constructor
      · intro _
        exact hlen.mpr h
      · intro _
        exact ⟨_, herr⟩
    · constructor
      · rintro ⟨r, hr⟩
        rw [herr] at hr
        cases hr
      · rintro ⟨h1, h2⟩
        exact absurd (hlen.mpr h) (by tauto)
  · push_neg at h
    have hsome := swFill_isSome seq_a seq_b score_func gap_penalty h.1 h.2
    obtain ⟨v, hv⟩ := Option.isSome_iff_exists.mp hsome
    obtain ⟨ms, ri, ci⟩ := v
    have hok : smith_waterman seq_a seq_b score_func gap_penalty
        = Except.ok
          (⟨seq_a.identifier,
              (swTraceback (swFill seq_a seq_b score_func gap_penalty).2.1 seq_a seq_b ri ci).map
                Prod.fst⟩,
            ⟨seq_b.identifier,
              (swTraceback (swFill seq_a seq_b score_func gap_penalty).2.1 seq_a seq_b ri ci).map
                Prod.snd⟩,
            ms) := by
      simp only [smith_waterman, hv]
    have hne : seq_a.motifs ≠ [] ∧ seq_b.motifs ≠ [] := by
      constructor
      · intro hc
        exact h.1 (by simp [Sequence.length, hc])
      · intro hc
        exact h.2 (by simp [Sequence.length, hc])
    constructor
    · constructor
      · rintro ⟨e, he⟩
        rw [hok] at he
        cases he
      · intro hc
        rcases hc with hc | hc
        · exact absurd (by simp [Sequence.length, hc] : seq_a.length = 0) h.1
        · exact absurd (by simp [Sequence.length, hc] : seq_b.length = 0) h.2
    · constructor
      · intro _
        exact hne
      · intro _
        exact ⟨_, hok⟩

/-- Witness for C10: applying the characterisation at an empty first input
produces the error result, and at two nonempty inputs the ok result. -/
theorem c10_smith_waterman_empty_raises_witness :
    (∃ e, smith_waterman (⟨"a", []⟩ : Sequence Char) ⟨"b", [chB]⟩ simpleScore 2
      = Except.error e)
    ∧ (∃ r, smith_waterman (⟨"a", [chA]⟩ : Sequence Char) ⟨"b", [chB]⟩ simpleScore 2
      = Except.ok r) :=
  ⟨(c10_smith_waterman_empty_raises (⟨"a", []⟩ : Sequence Char) ⟨"b", [chB]⟩
      simpleScore 2).1.mpr (Or.inl rfl),
   (c10_smith_waterman_empty_raises (⟨"a", [chA]⟩ : Sequence Char) ⟨"b", [chB]⟩
      simpleScore 2).2.mpr ⟨by decide, by decide⟩⟩

theorem headD_mem {β : Type} (l : List β) (d : β) (h : l ≠ []) : l.headD d ∈ l := by
  cases l with
  | nil => exact absurd rfl h
  | cons x xs => exact List.mem_cons_self x xs

theorem getLastD_mem {β : Type} : ∀ (l : List β) (d : β), l ≠ [] → l.getLastD d ∈ l := by
  intro l
  induction l with
  | nil => intro d h; exact absurd rfl h
  | cons x xs ih =>
    intro d _
    cases xs with
    | nil => simp [List.getLastD]
    | cons y ys =>
      rw [List.getLastD_cons]
      exact List.mem_cons_of_mem x (ih x (by simp))

theorem insert_gaps_fold_ids {α : Type} :
    ∀ (l : List (Nat × Motif α)) (others : List (Sequence α)) (s' : Sequence α),
    s' ∈ l.foldl (fun others p =>
        if p.2.tag = none then others.map (fun s => s.insert p.1 Gap) else others) others →
    ∃ s ∈ others, s'.identifier = s.identifier := by
  intro l
  induction l with
  | nil => intro others s' h; exact ⟨s', h, rfl⟩
  | cons p ps ih =>
    intro others s' h
    rw [List.foldl_cons] at h
    by_cases hp : p.2.tag = none
    · rw [if_pos hp] at h
      obtain ⟨t, ht, heq⟩ := ih _ s' h
      obtain ⟨u, hu, rfl⟩ := List.mem_map.mp ht
      exact ⟨u, hu, heq⟩
    · rw [if_neg hp] at h
      exact ih others s' h

theorem insert_new_gaps_ids {α : Type} (anchor : Sequence α) (others : List (Sequence α))
    (s' : Sequence α) (h : s' ∈ insert_new_gaps anchor others) :
    ∃ s ∈ others, s'.identifier = s.identifier :=
  insert_gaps_fold_ids anchor.motifs.enum others s' h

theorem merge_singles_ids {α : Type} [DecidableEq α] (s1 s2 : Sequence α)
    (gp egp : Int) (f : Motif α → Motif α → Int) (s' : Sequence α)
    (h : s' ∈ merge_singles s1 s2 gp egp f) :
    s'.identifier = s1.identifier ∨ s'.identifier = s2.identifier := by
  unfold merge_singles at h
  rcases List.mem_cons.mp h with rfl | h2
  · exact Or.inl rfl
  · rcases List.mem_cons.mp h2 with rfl | h3
    · exact Or.inr rfl
    · cases h3

theorem merge_singles_ne_nil {α : Type} [DecidableEq α] (s1 s2 : Sequence α)
    (gp egp : Int) (f : Motif α → Motif α → Int) :
    merge_singles s1 s2 gp egp f ≠ [] := by
  simp [merge_singles]

theorem merge_single_with_cluster_ids {α : Type} [DecidableEq α] (single : Sequence α)
    (cluster : List (Sequence α)) (gp egp : Int) (f : Motif α → Motif α → Int)
    (hc : cluster ≠ []) (s' : Sequence α)
    (h : s' ∈ merge_single_with_cluster single cluster gp egp f) :
    s'.identifier = single.identifier ∨ ∃ s ∈ cluster, s'.identifier = s.identifier := by
  simp only [merge_single_with_cluster] at h
  split_ifs at h with hsc
  · rcases List.mem_cons.mp h with rfl | h2
    · exact Or.inl rfl
    · rcases List.mem_cons.mp h2 with rfl | h3
      · exact Or.inr ⟨cluster.headD ⟨"", []⟩, headD_mem cluster _ hc, rfl⟩
      · obtain ⟨t, ht, rfl⟩ := List.mem_map.mp h3
        obtain ⟨u, hu, hequ⟩ := insert_new_gaps_ids _ _ t ht
        exact Or.inr ⟨u, List.mem_of_mem_tail hu, hequ⟩
  · rcases List.mem_append.mp h with h2 | h2
    · obtain ⟨t, ht, rfl⟩ := List.mem_map.mp h2
      obtain ⟨u, hu, hequ⟩ := insert_new_gaps_ids _ _ t ht
      exact Or.inr ⟨u, List.dropLast_subset cluster hu, hequ⟩
    · rcases List.mem_cons.mp h2 with rfl | h3
      · exact Or.inr ⟨cluster.getLastD ⟨"", []⟩, getLastD_mem cluster _ hc, rfl⟩
      · rcases List.mem_cons.mp h3 with rfl | h4
        · exact Or.inl rfl
        · cases h4

theorem merge_single_with_cluster_ne_nil {α : Type} [DecidableEq α] (single : Sequence α)
    (cluster : List (Sequence α)) (gp egp : Int) (f : Motif α → Motif α → Int) :
    merge_single_with_cluster single cluster gp egp f ≠ [] := by
  simp only [merge_single_with_cluster]
  split_ifs <;> simp

theorem merge_clusters_ids {α : Type} [DecidableEq α] (c1 c2 : List (Sequence α))
    (gp egp : Int) (f : Motif α → Motif α → Int) (h1 : c1 ≠ []) (h2 : c2 ≠ [])
    (s' : Sequence α) (h : s' ∈ merge_clusters c1 c2 gp egp f) :
    (∃ s ∈ c1, s'.identifier = s.identifier) ∨ (∃ s ∈ c2, s'.identifier = s.identifier) := by
  simp only [merge_clusters] at h
  split_ifs at h with hsc
  · rcases List.mem_append.mp h with hx | hx
    · rcases List.mem_append.mp hx with hy | hy
      · obtain ⟨t, ht, rfl⟩ := List.mem_map.mp hy
        obtain ⟨u, hu, hequ⟩ := insert_new_gaps_ids _ _ t ht
        exact Or.inl ⟨u, List.dropLast_subset c1 hu, hequ⟩
      · rcases List.mem_cons.mp hy with rfl | hz
        · exact Or.inl ⟨c1.getLastD ⟨"", []⟩, getLastD_mem c1 _ h1, rfl⟩
        · rcases List.mem_cons.mp hz with rfl | hw
          · exact Or.inr ⟨c2.headD ⟨"", []⟩, headD_mem c2 _ h2, rfl⟩
          · cases hw
    · obtain ⟨t, ht, rfl⟩ := List.mem_map.mp hx
      obtain ⟨u, hu, hequ⟩ := insert_new_gaps_ids _ _ t ht
      exact Or.inr ⟨u, List.mem_of_mem_tail hu, hequ⟩
  · rcases List.mem_append.mp h with hx | hx
    · rcases List.mem_append.mp hx with hy | hy
      · obtain ⟨t, ht, rfl⟩ := List.mem_map.mp hy
        obtain ⟨u, hu, hequ⟩ := insert_new_gaps_ids _ _ t ht
        exact Or.inr ⟨u, List.dropLast_subset c2 hu, hequ⟩
      · rcases List.mem_cons.mp hy with rfl | hz
        · exact Or.inl ⟨c1.headD ⟨"", []⟩, headD_mem c1 _ h1, rfl⟩
        · rcases List.mem_cons.mp hz with rfl | hw
          · exact Or.inr ⟨c2.getLastD ⟨"", []⟩, getLastD_mem c2 _ h2, rfl⟩
          · cases hw
    · obtain ⟨t, ht, rfl⟩ := List.mem_map.mp hx
      obtain ⟨u, hu, hequ⟩ := insert_new_gaps_ids _ _ t ht
      exact Or.inl ⟨u, List.mem_of_mem_tail hu, hequ⟩

theorem merge_clusters_ne_nil {α : Type} [DecidableEq α] (c1 c2 : List (Sequence α))
    (gp egp : Int) (f : Motif α → Motif α → Int) :
    merge_clusters c1 c2 gp egp f ≠ [] := by
  simp only [merge_clusters]
  split_ifs <;> simp

theorem msaMerge_ids {α : Type} [DecidableEq α] (gp egp : Int) (f : Motif α → Motif α → Int)
    (c1 c2 : List (Sequence α)) (h1 : c1 ≠ []) (h2 : c2 ≠ []) (s' : Sequence α)
    (h : s' ∈ msaMerge gp egp f c1 c2) :
    (∃ s ∈ c1, s'.identifier = s.identifier) ∨ (∃ s ∈ c2, s'.identifier = s.identifier) := by
  unfold msaMerge at h
  split_ifs at h with hb1 hb2 hb3
  · rcases merge_singles_ids _ _ gp egp f s' h with he | he
    · exact Or.inl ⟨c1.headD ⟨"", []⟩, headD_mem c1 _ h1, he⟩
    · exact Or.inr ⟨c2.headD ⟨"", []⟩, headD_mem c2 _ h2, he⟩
  · rcases merge_single_with_cluster_ids _ _ gp egp f h2 s' h with he | he
    · exact Or.inl ⟨c1.headD ⟨"", []⟩, headD_mem c1 _ h1, he⟩
    · exact Or.inr he
  · rcases merge_single_with_cluster_ids _ _ gp egp f h1 s' h with he | he
    · exact Or.inr ⟨c2.headD ⟨"", []⟩, headD_mem c2 _ h2, he⟩
    · exact Or.inl he
  · exact merge_clusters_ids c1 c2 gp egp f h1 h2 s' h

theorem msaMerge_ne_nil {α : Type} [DecidableEq α] (gp egp : Int) (f : Motif α → Motif α → Int)
    (c1 c2 : List (Sequence α)) : msaMerge gp egp f c1 c2 ≠ [] := by
  unfold msaMerge
  split_ifs
  · exact merge_singles_ne_nil _ _ gp egp f
  · exact merge_single_with_cluster_ne_nil _ _ gp egp f
  · exact merge_single_with_cluster_ne_nil _ _ gp egp f
  · exact merge_clusters_ne_nil _ _ gp egp f

theorem dictGet_some {β : Type} (d : List (Nat × β)) (k : Nat) (c : β)
    (h : dictGet d k = some c) : ∃ e ∈ d, e.2 = c := by
  unfold dictGet at h
  cases hf : d.find? (fun e => e.1 == k) with
  | none => rw [hf] at h; cases h
  | some e =>
    rw [hf] at h
    simp only [Option.map_some'] at h
    exact ⟨e, List.mem_of_find?_eq_some hf, by injection h⟩

theorem dictSet_mem {β : Type} (d : List (Nat × β)) (k : Nat) (v : β) (e' : Nat × β)
    (h : e' ∈ dictSet d k v) : e' ∈ d ∨ e'.2 = v := by
  unfold dictSet at h
  split_ifs at h
  · obtain ⟨e, he, heq⟩ := List.mem_map.mp h
    by_cases hek : (e.1 == k) = true
    · rw [if_pos hek] at heq
      right
      rw [← heq]
    · rw [if_neg hek] at heq
      left
      rw [← heq]
      exact he
  · rcases List.mem_append.mp h with h2 | h2
    · exact Or.inl h2
    · have : e' = (k, v) := by simpa using h2
      right
      rw [this]

theorem dictDel_some_subset {β : Type} (d : List (Nat × β)) (k : Nat)
    (d2 : List (Nat × β)) (h : dictDel d k = some d2) : ∀ e ∈ d2, e ∈ d := by
  unfold dictDel at h
  split_ifs at h
  injection h with h2
  subst h2
  intro e he
  exact List.mem_of_mem_filter he

theorem msaStep_preserves {α : Type} [DecidableEq α] (gp egp : Int)
    (f : Motif α → Motif α → Int) (n : Nat) (ids : List String)
    (d d' : List (Nat × List (Sequence α))) (p : Nat × Nat × Nat)
    (hstep : msaStep gp egp f n (some d) p = some d')
    (hinv : ∀ e ∈ d, e.2 ≠ [] ∧ ∀ s ∈ e.2, s.identifier ∈ ids) :
    ∀ e ∈ d', e.2 ≠ [] ∧ ∀ s ∈ e.2, s.identifier ∈ ids := by
  unfold msaStep at hstep
  have hstep1 : (match dictGet d p.2.1, dictGet d p.2.2 with
      | some c1, some c2 =>
        match dictDel (dictSet d (p.1 + n) (msaMerge gp egp f c1 c2)) p.2.1 with
        | none => none
        | some d2 => dictDel d2 p.2.2
      | _, _ => none) = some d' := hstep
  cases hc1 : dictGet d p.2.1 with
  | none =>
    rw [hc1] at hstep1
    exact Option.noConfusion hstep1
  | some c1 =>
    rw [hc1] at hstep1
    cases hc2 : dictGet d p.2.2 with
    | none =>
      rw [hc2] at hstep1
      exact Option.noConfusion hstep1
    | some c2 =>
      rw [hc2] at hstep1
      obtain ⟨e1, he1, he1v⟩ := dictGet_some d p.2.1 c1 hc1
      obtain ⟨e2, he2, he2v⟩ := dictGet_some d p.2.2 c2 hc2
      have hc1inv := hinv e1 he1
      have hc2inv := hinv e2 he2
      have hc1ne : c1 ≠ [] := he1v ▸ hc1inv.1
      have hc2ne : c2 ≠ [] := he2v ▸ hc2inv.1
      have hc1ids : ∀ s ∈ c1, s.identifier ∈ ids := he1v ▸ hc1inv.2
      have hc2ids : ∀ s ∈ c2, s.identifier ∈ ids := he2v ▸ hc2inv.2
      have hmerged : ∀ s ∈ msaMerge gp egp f c1 c2, s.identifier ∈ ids := by
        intro s hs
        rcases msaMerge_ids gp egp f c1 c2 hc1ne hc2ne s hs with ⟨t, ht, he⟩ | ⟨t, ht, he⟩
        · exact he ▸ hc1ids t ht
        · exact he ▸ hc2ids t ht
      have hd1 : ∀ e ∈ dictSet d (p.1 + n) (msaMerge gp egp f c1 c2),
          e.2 ≠ [] ∧ ∀ s ∈ e.2, s.identifier ∈ ids := by
        intro e he
        rcases dictSet_mem d (p.1 + n) (msaMerge gp egp f c1 c2) e he with hmem | hval
        · exact hinv e hmem
        · exact ⟨hval ▸ msaMerge_ne_nil gp egp f c1 c2, hval ▸ hmerged⟩
      have hstep2 : (match dictDel (dictSet d (p.1 + n) (msaMerge gp egp f c1 c2)) p.2.1 with
          | none => none
          | some d2 => dictDel d2 p.2.2) = some d' := hstep1
      cases hdel1 : dictDel (dictSet d (p.1 + n) (msaMerge gp egp f c1 c2)) p.2.1 with
      | none =>
        rw [hdel1] at hstep2
        exact Option.noConfusion hstep2
      | some d2 =>
        rw [hdel1] at hstep2
        have hd2 : ∀ e ∈ d2, e.2 ≠ [] ∧ ∀ s ∈ e.2, s.identifier ∈ ids := fun e he =>
          hd1 e (dictDel_some_subset _ p.2.1 d2 hdel1 e he)
        intro e he
        exact hd2 e (dictDel_some_subset d2 p.2.2 d' hstep2 e he)

theorem msaFold_none {α : Type} [DecidableEq α] (gp egp : Int)
    (f : Motif α → Motif α → Int) (n : Nat) :
    ∀ (l : List (Nat × Nat × Nat)),
    l.foldl (msaStep gp egp f n) (none : Option (List (Nat × List (Sequence α)))) = none := by
  intro l
  induction l with
  | nil => rfl
  | cons x xs ih =>
    rw [List.foldl_cons]
    exact ih

theorem msaFold_inv {α : Type} [DecidableEq α] (gp egp : Int)
    (f : Motif α → Motif α → Int) (n : Nat) (ids : List String) :
    ∀ (l : List (Nat × Nat × Nat)) (d d' : List (Nat × List (Sequence α))),
    l.foldl (msaStep gp egp f n) (some d) = some d' →
    (∀ e ∈ d, e.2 ≠ [] ∧ ∀ s ∈ e.2, s.identifier ∈ ids) →
    ∀ e ∈ d', e.2 ≠ [] ∧ ∀ s ∈ e.2, s.identifier ∈ ids := by
  intro l
  induction l with
  | nil =>
    intro d d' h hinv
    injection h with h2
    exact h2 ▸ hinv
  | cons x xs ih =>
    intro d d' h hinv
    rw [List.foldl_cons] at h
    cases hs : msaStep gp egp f n (some d) x with
    | none =>
      rw [hs] at h
      rw [msaFold_none gp egp f n xs] at h
      cases h
    | some d1 =>
      rw [hs] at h
      exact ih d1 d' h (msaStep_preserves gp egp f n ids d d1 x hs hinv)

theorem enumFrom_snd_mem {β : Type} :
    ∀ (l : List β) (k : Nat) (p : Nat × β), p ∈ l.enumFrom k → p.2 ∈ l := by
  intro l
  induction l with
  | nil => intro k p h; simp [List.enumFrom] at h
  | cons x xs ih =>
    intro k p h
    rcases List.mem_cons.mp h with rfl | h2
    · exact List.mem_cons_self x xs
    · exact List.mem_cons_of_mem x (ih (k + 1) p h2)

/-- C9: identifiers are stable across all alignment operations: both global
and local pairwise alignment hand the input identifiers through to the
corresponding outputs, and every sequence of a successful MSA carries the
identifier of one of the input sequences. -/
theorem c9_identifiers_stable {α : Type} [DecidableEq α] (seq_a seq_b : Sequence α)
    (score_func : Motif α → Motif α → Int) (gp egp : Int)
    (seqs : List (Sequence α)) (guide_tree : List (Nat × Nat))
    (r : Sequence α × Sequence α × Int) (out : List (Sequence α)) :
    ((needleman_wunsch seq_a seq_b score_func gp egp).1.identifier = seq_a.identifier
      ∧ (needleman_wunsch seq_a seq_b score_func gp egp).2.1.identifier = seq_b.identifier)
    ∧ (smith_waterman seq_a seq_b score_func gp = Except.ok r →
        r.1.identifier = seq_a.identifier ∧ r.2.1.identifier = seq_b.identifier)
    ∧ (multiple_sequence_alignment seqs gp egp score_func guide_tree = some out →
        ∀ s ∈ out, s.identifier ∈ seqs.map Sequence.identifier) := by
  refine ⟨⟨rfl, rfl⟩, ?_, ?_⟩
  · intro hok
    simp only [smith_waterman] at hok
    cases hmx : (swFill seq_a seq_b score_func gp).2.2 with
    | none =>
      rw [hmx] at hok
      exact Except.noConfusion hok
    | some v =>
      obtain ⟨ms, ri, ci⟩ := v
      rw [hmx] at hok
      have h2 := Except.ok.inj hok
      rw [← h2]
      exact ⟨rfl, rfl⟩
  · intro hmsa s hs
    simp only [multiple_sequence_alignment] at hmsa
    by_cases h0 : seqs.length = 0
    · rw [if_pos h0] at hmsa
      injection hmsa with h2
      rw [← h2] at hs
      cases hs
    · rw [if_neg h0] at hmsa
      by_cases h1 : seqs.length = 1
      · rw [if_pos h1] at hmsa
        injection hmsa with h2
        rw [← h2] at hs
        exact List.mem_map_of_mem Sequence.identifier hs
      · rw [if_neg h1] at hmsa
        cases hfold : (guide_tree.enum.foldl (msaStep gp egp score_func seqs.length)
            (some (seqs.enum.map (fun p => (p.1, [p.2]))))) with
        | none =>
          rw [hfold] at hmsa
          exact Option.noConfusion hmsa
        | some dfin =>
          rw [hfold] at hmsa
          have hinit : ∀ e ∈ seqs.enum.map (fun p => (p.1, [p.2])),
              e.2 ≠ [] ∧ ∀ t ∈ e.2, t.identifier ∈ seqs.map Sequence.identifier := by
            intro e he
            obtain ⟨p, hp, rfl⟩ := List.mem_map.mp he
            refine ⟨by simp, ?_⟩
            intro t ht
            have : t = p.2 := by simpa using ht
            subst this
            exact List.mem_map_of_mem Sequence.identifier (enumFrom_snd_mem seqs 0 p hp)
          have hfin := msaFold_inv gp egp score_func seqs.length
            (seqs.map Sequence.identifier) guide_tree.enum _ dfin hfold hinit
          cases dfin with
          | nil => exact Option.noConfusion hmsa
          | cons e rest =>
            cases rest with
            | nil =>
              obtain ⟨k, cluster⟩ := e
              have h2 : some cluster = some out := hmsa
              injection h2 with h3
              exact (hfin (k, cluster) (List.mem_cons_self _ _)).2 s (by rw [h3]; exact hs)
            | cons e2 rest2 => exact Option.noConfusion hmsa

/-- Witness for C9: the local alignment of A against A and a two sequence
MSA, with the hypotheses discharged by evaluation. -/
theorem c9_identifiers_stable_witness :
    ((smith_waterman (⟨"a", [chA]⟩ : Sequence Char) ⟨"b", [chA]⟩ simpleScore 2
        = Except.ok (⟨"a", [chA]⟩, ⟨"b", [chA]⟩, 1))
      ∧ ((⟨"a", [chA]⟩ : Sequence Char), (⟨"b", [chA]⟩ : Sequence Char),
          (1 : Int)).1.identifier = "a")
    ∧ (multiple_sequence_alignment [(⟨"s0", [chA]⟩ : Sequence Char), ⟨"s1", [chB]⟩]
          2 1 simpleScore [(0, 1)]
        = some [⟨"s0", [Gap, chA]⟩, ⟨"s1", [chB, Gap]⟩]
      ∧ ∀ s ∈ ([(⟨"s0", [Gap, chA]⟩ : Sequence Char), ⟨"s1", [chB, Gap]⟩] :
            List (Sequence Char)),
          s.identifier ∈ ([(⟨"s0", [chA]⟩ : Sequence Char), ⟨"s1", [chB]⟩].map
            Sequence.identifier)) := by
  constructor
  · constructor
    · rfl
    · exact ((c9_identifiers_stable (⟨"a", [chA]⟩ : Sequence Char) ⟨"b", [chA]⟩
        simpleScore 2 1 [] [] (⟨"a", [chA]⟩, ⟨"b", [chA]⟩, 1) []).2.1 rfl).1
  · constructor
    · rfl
    · exact (c9_identifiers_stable (⟨"a", [chA]⟩ : Sequence Char) ⟨"b", [chA]⟩
        simpleScore 2 1 [(⟨"s0", [chA]⟩ : Sequence Char), ⟨"s1", [chB]⟩] [(0, 1)]
        (⟨"a", [chA]⟩, ⟨"b", [chA]⟩, 1)
        [⟨"s0", [Gap, chA]⟩, ⟨"s1", [chB, Gap]⟩]).2.2 rfl

end Versalign
